import Mathlib

/-!
Verification of the worklog-mcp inter-process coordination layer.

The development shallowly embeds the three core modules of the repository —
`event_bus.py` (EventBus), `job_queue.py` (JobQueue) and
`llm_integration/session_manager.py` (SessionManager) — together with the
parts of the Python runtime their logic depends on: JSON
serialization/deserialization (`json.dumps` / `json.loads`) for the text
columns of the `events` and `jobs` tables, SQLite statement semantics for the
queries the two queue classes issue, and the dynamic typing of the
`last_activity` field of `AgentSession` (written both as `datetime` and as a
`float`, which is what decides whether `.timestamp()` is a valid attribute
access).

Timestamps are modelled as natural numbers: `datetime.now().isoformat()`
produces strings whose lexicographic order matches chronological order within
one process, so the `ORDER BY created_at` / `created_at < ?` comparisons the
code issues are order-isomorphic to comparisons of the clock readings
themselves.  Each embedded operation takes the clock reading it would obtain
from `datetime.now()` / `time.time()` as an explicit argument.
-/

/-! ## JSON values

`JVal` is the domain of structured payloads the bus and queue carry: the
Python values built from `None`, `bool`, `int`, `str`, `list` and str-keyed
`dict` — i.e. exactly the values the repository publishes (event payloads and
job payloads are str-keyed dicts of strings and numbers, nested at will).
Python strings are sequences of code points, modelled as `List Char`. -/

inductive JVal where
  | null : JVal
  | bool (b : Bool) : JVal
  | int (n : Int) : JVal
  | str (s : List Char) : JVal
  | arr (xs : List JVal) : JVal
  | obj (kvs : List (List Char × JVal)) : JVal

/-! ### Serialization: a model of `json.dumps`

`json.dumps(data)` with the library defaults emits item separator `", "` and
key separator `": "` and no other whitespace; the serializer below emits the
same shape.  (String escaping is simplified to the two characters that have
to be escaped for the encoding to be injective, `"` and `\`; Python
additionally escapes control and non-ASCII characters, which changes the wire
text but not which value the text denotes, so the simplification is invisible
to every property proved here.) -/

def escChar (c : Char) : List Char :=
  if c = '"' ∨ c = '\\' then ['\\', c] else [c]

def dumpString (s : List Char) : List Char :=
  '"' :: (s.flatMap escChar ++ ['"'])

/-- One decimal digit character. -/
def digCh (d : Nat) : Char := Char.ofNat (48 + d)

/-- Decimal digits, least significant first; `fuel` bounds the recursion depth
so the definition is structural (and hence kernel-reducible).  `natDigsRev`
instantiates `fuel := n`, which `natDigsRev_unfold` below shows is enough. -/
def natDigsRevAux : Nat → Nat → List Char
  | 0, n => [digCh n]
  | fuel + 1, n => if n < 10 then [digCh n] else digCh (n % 10) :: natDigsRevAux fuel (n / 10)

/-- Decimal digits of `n`, least significant first. -/
def natDigsRev (n : Nat) : List Char := natDigsRevAux n n

theorem natDigsRevAux_fuel (n : Nat) : ∀ fuel fuel', n ≤ fuel → n ≤ fuel' →
    natDigsRevAux fuel n = natDigsRevAux fuel' n := by
  induction n using Nat.strong_induction_on with
  | _ n ih =>
    intro fuel fuel' h h'
    match fuel, fuel' with
    | 0, 0 => rfl
    | 0, g + 1 =>
      interval_cases n
      simp [natDigsRevAux]
    | f + 1, 0 =>
      interval_cases n
      simp [natDigsRevAux]
    | f + 1, g + 1 =>
      simp only [natDigsRevAux]
      by_cases h10 : n < 10
      · simp [h10]
      · simp only [h10, if_false]
        rw [ih (n / 10) (by omega) f g (by omega) (by omega)]

theorem natDigsRev_unfold (n : Nat) :
    natDigsRev n = if n < 10 then [digCh n] else digCh (n % 10) :: natDigsRev (n / 10) := by
  by_cases h10 : n < 10
  · match n, h10 with
    | 0, _ => simp [natDigsRev, natDigsRevAux]
    | m + 1, h => simp [natDigsRev, natDigsRevAux, h]
  · have h1 : ∃ f, n = f + 1 := ⟨n - 1, by omega⟩
    obtain ⟨f, rfl⟩ := h1
    simp only [natDigsRev, natDigsRevAux, h10, if_false]
    rw [natDigsRevAux_fuel ((f + 1) / 10) f ((f + 1) / 10) (by omega) (by omega)]

/-- Decimal digits of `n`, most significant first. -/
def natDigs (n : Nat) : List Char := (natDigsRev n).reverse

/-- Decimal text of an integer, as Python renders it. -/
def intChars (i : Int) : List Char :=
  if i < 0 then '-' :: natDigs i.natAbs else natDigs i.natAbs

mutual

def dumps : JVal → List Char
  | .null => ['n', 'u', 'l', 'l']
  | .bool b => if b then ['t', 'r', 'u', 'e'] else ['f', 'a', 'l', 's', 'e']
  | .int n => intChars n
  | .str s => dumpString s
  | .arr xs => '[' :: (dumpItems xs ++ [']'])
  | .obj kvs => '{' :: (dumpMembers kvs ++ ['}'])

def dumpItems : List JVal → List Char
  | [] => []
  | [x] => dumps x
  | x :: y :: xs => dumps x ++ ',' :: ' ' :: dumpItems (y :: xs)

def dumpMembers : List (List Char × JVal) → List Char
  | [] => []
  | [(k, v)] => dumpString k ++ ':' :: ' ' :: dumps v
  | (k, v) :: m :: ms =>
      dumpString k ++ ':' :: ' ' :: dumps v ++ ',' :: ' ' :: dumpMembers (m :: ms)

end

/-- The serialized payload text stored in a `data` / `payload` column. -/
def json_dumps (v : JVal) : List Char := dumps v

/-! ### Deserialization: a model of `json.loads`

A total recursive-descent parser over the canonical grammar `json_dumps`
emits (`json.loads` accepts a superset; the two agree on every text a
`json_dumps` call produced, which is the only text the repository ever reads
back).  Recursion is on a fuel counter; `json_loads` supplies fuel larger
than the input, which the round-trip proof shows is always enough. -/

def isWsCh (c : Char) : Bool := c = ' ' || c = '\t' || c = '\n' || c = '\r'

def dropWs : List Char → List Char
  | [] => []
  | c :: cs => if isWsCh c then dropWs cs else c :: cs

/-- Read a string body up to its closing quote, undoing `escChar`. -/
def readString : List Char → Option (List Char × List Char)
  | [] => none
  | c :: cs =>
    if c = '"' then some ([], cs)
    else if c = '\\' then
      match cs with
      | [] => none
      | d :: cs' => (readString cs').map (fun p => (d :: p.1, p.2))
    else (readString cs).map (fun p => (c :: p.1, p.2))

/-- Longest digit prefix and the remainder. -/
def grabDigits : List Char → List Char × List Char
  | [] => ([], [])
  | c :: cs =>
    if c.isDigit then
      let p := grabDigits cs
      (c :: p.1, p.2)
    else ([], c :: cs)

/-- Numeric value of a digit string, most significant first. -/
def digsVal (ds : List Char) : Nat :=
  ds.foldl (fun a c => 10 * a + (c.toNat - 48)) 0

/-- Read a (possibly negative) decimal integer. -/
def readInt (cs : List Char) : Option (Int × List Char) :=
  match cs with
  | '-' :: cs' =>
    let p := grabDigits cs'
    if p.1.isEmpty then none else some (-(digsVal p.1 : Int), p.2)
  | _ =>
    let p := grabDigits cs
    if p.1.isEmpty then none else some ((digsVal p.1 : Int), p.2)

mutual

def parseV : Nat → List Char → Option (JVal × List Char)
  | 0, _ => none
  | fuel + 1, cs =>
    match dropWs cs with
    | [] => none
    | c :: r =>
      if c = 'n' then
        match r with
        | 'u' :: 'l' :: 'l' :: r' => some (.null, r')
        | _ => none
      else if c = 't' then
        match r with
        | 'r' :: 'u' :: 'e' :: r' => some (.bool true, r')
        | _ => none
      else if c = 'f' then
        match r with
        | 'a' :: 'l' :: 's' :: 'e' :: r' => some (.bool false, r')
        | _ => none
      else if c = '"' then
        (readString r).map (fun p => (.str p.1, p.2))
      else if c = '[' then
        match dropWs r with
        | [] => none
        | d :: r' =>
          if d = ']' then some (.arr [], r')
          else
            match parseItems fuel (d :: r') with
            | some (vs, r'') => some (.arr vs, r'')
            | none => none
      else if c = '{' then
        match dropWs r with
        | [] => none
        | d :: r' =>
          if d = '}' then some (.obj [], r')
          else
            match parseMembers fuel (d :: r') with
            | some (ms, r'') => some (.obj ms, r'')
            | none => none
      else if c = '-' ∨ c.isDigit then
        (readInt (c :: r)).map (fun p => (.int p.1, p.2))
      else none

def parseItems : Nat → List Char → Option (List JVal × List Char)
  | 0, _ => none
  | fuel + 1, cs =>
    match parseV fuel cs with
    | none => none
    | some (v, r) =>
      match dropWs r with
      | [] => none
      | d :: r' =>
        if d = ']' then some ([v], r')
        else if d = ',' then
          match parseItems fuel (dropWs r') with
          | some (vs, r'') => some (v :: vs, r'')
          | none => none
        else none

def parseMembers : Nat → List Char → Option (List (List Char × JVal) × List Char)
  | 0, _ => none
  | fuel + 1, cs =>
    match dropWs cs with
    | [] => none
    | c :: r =>
      if c = '"' then
        match readString r with
        | none => none
        | some (k, r1) =>
          match dropWs r1 with
          | [] => none
          | d :: r2 =>
            if d = ':' then
              match parseV fuel r2 with
              | none => none
              | some (v, r3) =>
                match dropWs r3 with
                | [] => none
                | e :: r4 =>
                  if e = '}' then some ([(k, v)], r4)
                  else if e = ',' then
                    match parseMembers fuel (dropWs r4) with
                    | some (ms, r5) => some ((k, v) :: ms, r5)
                    | none => none
                  else none
            else none
      else none

end

/-- The structured value a stored payload text denotes, if any. -/
def json_loads (cs : List Char) : Option JVal :=
  match parseV (cs.length + 1) cs with
  | some (v, r) => if (dropWs r).isEmpty then some v else none
  | none => none

/-! ### Round trip: `json_loads (json_dumps v) = some v`

The repository stores `json.dumps(payload)` and reads back
`json.loads(column)`; every "payload round-tripped verbatim" property reduces
to this inversion. -/

/-- Does the input begin with a decimal digit?  (The only way a remainder
could be absorbed into a just-parsed integer token.) -/
def digitStart : List Char → Bool
  | [] => false
  | c :: _ => c.isDigit

theorem digCh_spec (d : Nat) (h : d < 10) :
    (digCh d).isDigit = true ∧ (digCh d).toNat - 48 = d := by
  interval_cases d <;> exact ⟨by decide, by decide⟩

theorem isDigit_not_special (c : Char) (h : c.isDigit = true) :
    isWsCh c = false ∧ c ≠ 'n' ∧ c ≠ 't' ∧ c ≠ 'f' ∧ c ≠ '"' ∧ c ≠ '[' ∧ c ≠ '{'
      ∧ c ≠ ']' ∧ c ≠ '}' ∧ c ≠ '-' ∧ c ≠ '\\' := by
  refine ⟨?_, ?_, ?_, ?_, ?_, ?_, ?_, ?_, ?_, ?_, ?_⟩
  · simp only [isWsCh, Bool.or_eq_false_iff, decide_eq_false_iff_not]
    refine ⟨⟨⟨?_, ?_⟩, ?_⟩, ?_⟩ <;> (rintro rfl; exact absurd h (by decide))
  all_goals (rintro rfl; exact absurd h (by decide))

theorem natDigsRev_digits (n : Nat) : ∀ c ∈ natDigsRev n, c.isDigit = true := by
  induction n using Nat.strong_induction_on with
  | _ n ih =>
    rw [natDigsRev_unfold]
    by_cases h10 : n < 10
    · simp only [h10, if_true, List.mem_singleton]
      rintro c rfl
      exact (digCh_spec n h10).1
    · simp only [h10, if_false, List.mem_cons]
      rintro c (rfl | hc)
      · exact (digCh_spec _ (Nat.mod_lt _ (by omega))).1
      · exact ih (n / 10) (by omega) c hc

theorem natDigsRev_ne_nil (n : Nat) : natDigsRev n ≠ [] := by
  rw [natDigsRev_unfold]
  by_cases h10 : n < 10 <;> simp [h10]

theorem natDigsRev_foldr (n : Nat) :
    (natDigsRev n).foldr (fun c a => 10 * a + (c.toNat - 48)) 0 = n := by
  induction n using Nat.strong_induction_on with
  | _ n ih =>
    rw [natDigsRev_unfold]
    by_cases h10 : n < 10
    · simp only [h10, if_true, List.foldr_cons, List.foldr_nil, Nat.mul_zero, Nat.zero_add]
      exact (digCh_spec n h10).2
    · simp only [h10, if_false, List.foldr_cons]
      rw [ih (n / 10) (by omega), (digCh_spec _ (Nat.mod_lt _ (by omega))).2]
      omega

theorem digsVal_natDigs (n : Nat) : digsVal (natDigs n) = n := by
  rw [digsVal, natDigs, List.foldl_reverse]
  exact natDigsRev_foldr n

theorem natDigs_digits (n : Nat) : ∀ c ∈ natDigs n, c.isDigit = true := by
  intro c hc
  exact natDigsRev_digits n c (List.mem_reverse.mp hc)

theorem natDigs_ne_nil (n : Nat) : natDigs n ≠ [] := by
  simp only [natDigs, ne_eq, List.reverse_eq_nil_iff]
  exact natDigsRev_ne_nil n

theorem natDigs_cons (n : Nat) :
    ∃ c t, natDigs n = c :: t ∧ c.isDigit = true := by
  match h : natDigs n with
  | [] => exact absurd h (natDigs_ne_nil n)
  | c :: t => exact ⟨c, t, rfl, natDigs_digits n c (h ▸ List.mem_cons_self c t)⟩

theorem grabDigits_stop {cs : List Char} (h : digitStart cs = false) :
    grabDigits cs = ([], cs) := by
  match cs with
  | [] => rfl
  | c :: t => simp only [digitStart] at h; simp [grabDigits, h]

theorem grabDigits_run (ds : List Char) (hds : ∀ c ∈ ds, c.isDigit = true)
    (rest : List Char) (hrest : digitStart rest = false) :
    grabDigits (ds ++ rest) = (ds, rest) := by
  induction ds with
  | nil => simpa using grabDigits_stop hrest
  | cons c t ih =>
    have hc : c.isDigit = true := hds c (List.mem_cons_self c t)
    have ht := ih (fun x hx => hds x (List.mem_cons_of_mem c hx))
    simp [grabDigits, hc, ht]

theorem readInt_inv (i : Int) (rest : List Char) (hrest : digitStart rest = false) :
    readInt (intChars i ++ rest) = some (i, rest) := by
  by_cases hneg : i < 0
  · have : intChars i ++ rest = '-' :: (natDigs i.natAbs ++ rest) := by
      simp [intChars, hneg]
    rw [this]
    simp only [readInt, grabDigits_run _ (natDigs_digits _) _ hrest]
    rw [if_neg (by simp [natDigs_ne_nil])]
    simp only [Option.some.injEq, Prod.mk.injEq, and_true]
    rw [digsVal_natDigs]
    omega
  · obtain ⟨c, t, hds, hc⟩ := natDigs_cons i.natAbs
    have hne : c ≠ '-' := (isDigit_not_special c hc).2.2.2.2.2.2.2.2.2.1
    have : intChars i ++ rest = c :: (t ++ rest) := by
      simp [intChars, hneg, hds]
    rw [this]
    have hgrab : grabDigits (c :: (t ++ rest)) = (c :: t, rest) := by
      have := grabDigits_run (natDigs i.natAbs) (natDigs_digits _) rest hrest
      rwa [hds, List.cons_append] at this
    simp only [readInt]
    split
    · rename_i cs' heq
      exact absurd (List.cons.injEq .. ▸ heq).1 hne
    · rw [hgrab]
      simp only [List.isEmpty_cons, Bool.false_eq_true, if_false, Option.some.injEq,
        Prod.mk.injEq, and_true]
      have : digsVal (c :: t) = i.natAbs := by rw [← hds, digsVal_natDigs]
      rw [this]
      omega

theorem readString_quote (cs : List Char) : readString ('"' :: cs) = some ([], cs) := by
  rw [readString.eq_def]
  simp

theorem readString_esc (c : Char) (cs : List Char) :
    readString ('\\' :: c :: cs) = (readString cs).map (fun p => (c :: p.1, p.2)) := by
  rw [readString.eq_def]
  simp

theorem readString_plain {c : Char} (h1 : c ≠ '"') (h2 : c ≠ '\\') (cs : List Char) :
    readString (c :: cs) = (readString cs).map (fun p => (c :: p.1, p.2)) := by
  rw [readString.eq_def]
  simp [h1, h2]

theorem readString_inv (s : List Char) : ∀ rest : List Char,
    readString (s.flatMap escChar ++ '"' :: rest) = some (s, rest) := by
  induction s with
  | nil => intro rest; simpa using readString_quote rest
  | cons c t ih =>
    intro rest
    by_cases hc : c = '"' ∨ c = '\\'
    · have harg : (c :: t).flatMap escChar ++ '"' :: rest
          = '\\' :: c :: (t.flatMap escChar ++ '"' :: rest) := by
        simp [escChar, hc]
      rw [harg, readString_esc, ih rest]
      rfl
    · push_neg at hc
      have harg : (c :: t).flatMap escChar ++ '"' :: rest
          = c :: (t.flatMap escChar ++ '"' :: rest) := by
        simp [escChar, hc.1, hc.2]
      rw [harg, readString_plain hc.1 hc.2, ih rest]
      rfl

theorem dropWs_nonws {c : Char} (h : isWsCh c = false) (r : List Char) :
    dropWs (c :: r) = c :: r := by
  simp [dropWs, h]

theorem parseV_ws_cons {c : Char} (h : isWsCh c = true) (fuel : Nat) (X : List Char) :
    parseV fuel (c :: X) = parseV fuel X := by
  match fuel with
  | 0 => rfl
  | fuel + 1 =>
    simp only [parseV]
    rw [dropWs, if_pos h]

/-- Every serialized value starts with a character that is not whitespace and
closes no bracket; this pins down the parser's dispatch branch. -/
theorem dumps_head (v : JVal) :
    ∃ c t, dumps v = c :: t ∧ isWsCh c = false ∧ c ≠ ']' ∧ c ≠ '}' := by
  match v with
  | .null => exact ⟨'n', _, rfl, by decide, by decide, by decide⟩
  | .bool true => exact ⟨'t', _, rfl, by decide, by decide, by decide⟩
  | .bool false => exact ⟨'f', _, rfl, by decide, by decide, by decide⟩
  | .str s => exact ⟨'"', _, rfl, by decide, by decide, by decide⟩
  | .arr xs => exact ⟨'[', _, rfl, by decide, by decide, by decide⟩
  | .obj kvs => exact ⟨'{', _, rfl, by decide, by decide, by decide⟩
  | .int i =>
    by_cases hneg : i < 0
    · refine ⟨'-', natDigs i.natAbs, ?_, by decide, by decide, by decide⟩
      simp [dumps, intChars, hneg]
    · obtain ⟨c, t, hds, hc⟩ := natDigs_cons i.natAbs
      obtain ⟨hws, _, _, _, _, _, _, hbr, hbc, _, _⟩ := isDigit_not_special c hc
      refine ⟨c, t, ?_, hws, hbr, hbc⟩
      simp [dumps, intChars, hneg, hds]

/-- A nonempty item list serializes to its first value followed by a tail. -/
theorem dumpItems_cons (x : JVal) (xs : List JVal) :
    ∃ tail, dumpItems (x :: xs) = dumps x ++ tail := by
  match xs with
  | [] => exact ⟨[], by simp [dumpItems]⟩
  | y :: ys => exact ⟨',' :: ' ' :: dumpItems (y :: ys), by simp [dumpItems]⟩

/-- A nonempty member list serializes to a text beginning with a quote. -/
theorem dumpMembers_cons (kv : List Char × JVal) (ms : List (List Char × JVal)) :
    ∃ tail, dumpMembers (kv :: ms) = '"' :: tail := by
  match kv, ms with
  | (k, v), [] =>
    exact ⟨k.flatMap escChar ++ '"' :: ':' :: ' ' :: dumps v,
      by simp [dumpMembers, dumpString]⟩
  | (k, v), m :: ms =>
    exact ⟨k.flatMap escChar ++ '"' :: ':' :: ' ' :: (dumps v ++ ',' :: ' ' :: dumpMembers (m :: ms)),
      by simp [dumpMembers, dumpString]⟩

theorem parseV_int_branch (f : Nat) (c : Char) (r : List Char)
    (hws : isWsCh c = false) (hn : c ≠ 'n') (ht : c ≠ 't') (hf : c ≠ 'f') (hq : c ≠ '"')
    (hlb : c ≠ '[') (hcb : c ≠ '{') (hnum : c = '-' ∨ c.isDigit = true) :
    parseV (f + 1) (c :: r) = (readInt (c :: r)).map (fun p => (.int p.1, p.2)) := by
  simp only [parseV]
  rw [dropWs_nonws hws]
  simp [hn, ht, hf, hq, hlb, hcb, hnum]

theorem parseV_arr_branch (f : Nat) (X : List Char) (c0 : Char) (w : List Char)
    (hX : dropWs X = c0 :: w) (hc0 : c0 ≠ ']') :
    parseV (f + 1) ('[' :: X)
      = (match parseItems f (c0 :: w) with
         | some (vs, r) => some (.arr vs, r)
         | none => none) := by
  simp only [parseV]
  rw [dropWs_nonws (by decide)]
  simp [hX, hc0]

theorem parseV_obj_branch (f : Nat) (X : List Char) (w : List Char)
    (hX : dropWs X = '"' :: w) :
    parseV (f + 1) ('{' :: X)
      = (match parseMembers f ('"' :: w) with
         | some (ms, r) => some (.obj ms, r)
         | none => none) := by
  simp only [parseV]
  rw [dropWs_nonws (by decide)]
  simp [hX]

mutual

theorem rt_v : ∀ (v : JVal) (fuel : Nat) (rest : List Char),
    (dumps v).length < fuel → digitStart rest = false →
    parseV fuel (dumps v ++ rest) = some (v, rest)
  | .null, fuel, rest, hlen, _ => by
    cases fuel with
    | zero => exact absurd hlen (Nat.not_lt_zero _)
    | succ f => simp [dumps, parseV, dropWs, isWsCh]
  | .bool true, fuel, rest, hlen, _ => by
    cases fuel with
    | zero => exact absurd hlen (Nat.not_lt_zero _)
    | succ f => simp [dumps, parseV, dropWs, isWsCh]
  | .bool false, fuel, rest, hlen, _ => by
    cases fuel with
    | zero => exact absurd hlen (Nat.not_lt_zero _)
    | succ f => simp [dumps, parseV, dropWs, isWsCh]
  | .int i, fuel, rest, hlen, hrest => by
    cases fuel with
    | zero => exact absurd hlen (Nat.not_lt_zero _)
    | succ f =>
      by_cases hneg : i < 0
      · have harg : dumps (.int i) ++ rest = '-' :: (natDigs i.natAbs ++ rest) := by
          simp [dumps, intChars, hneg]
        rw [harg, parseV_int_branch f '-' _ (by decide) (by decide) (by decide) (by decide)
          (by decide) (by decide) (by decide) (Or.inl rfl)]
        have hback : '-' :: (natDigs i.natAbs ++ rest) = intChars i ++ rest := by
          simp [intChars, hneg]
        rw [hback, readInt_inv i rest hrest]
        rfl
      · obtain ⟨c, t, hds, hc⟩ := natDigs_cons i.natAbs
        obtain ⟨hws, hn, ht, hf, hq, hlb, hcb, _, _, _, _⟩ := isDigit_not_special c hc
        have harg : dumps (.int i) ++ rest = c :: (t ++ rest) := by
          simp [dumps, intChars, hneg, hds]
        rw [harg, parseV_int_branch f c _ hws hn ht hf hq hlb hcb (Or.inr hc)]
        have hback : c :: (t ++ rest) = intChars i ++ rest := by
          simp [intChars, hneg, hds]
        rw [hback, readInt_inv i rest hrest]
        rfl
  | .str s, fuel, rest, hlen, _ => by
    cases fuel with
    | zero => exact absurd hlen (Nat.not_lt_zero _)
    | succ f =>
      have harg : dumps (.str s) ++ rest = '"' :: (s.flatMap escChar ++ '"' :: rest) := by
        simp [dumps, dumpString]
      rw [harg]
      simp only [parseV]
      rw [dropWs_nonws (by decide)]
      simp [readString_inv s rest]
  | .arr [], fuel, rest, hlen, _ => by
    cases fuel with
    | zero => exact absurd hlen (Nat.not_lt_zero _)
    | succ f =>
      have harg : dumps (.arr []) ++ rest = '[' :: ']' :: rest := by
        simp [dumps, dumpItems]
      rw [harg]
      simp [parseV, dropWs, isWsCh]
  | .arr (x :: xs), fuel, rest, hlen, _ => by
    cases fuel with
    | zero => exact absurd hlen (Nat.not_lt_zero _)
    | succ f =>
      obtain ⟨tl, htl⟩ := dumpItems_cons x xs
      obtain ⟨c0, t0, hd0, hws0, hbr0, _⟩ := dumps_head x
      have hcons : dumpItems (x :: xs) ++ ']' :: rest
          = c0 :: (t0 ++ tl ++ ']' :: rest) := by
        rw [htl, hd0]
        simp
      have hdrop : dropWs (dumpItems (x :: xs) ++ ']' :: rest)
          = c0 :: (t0 ++ tl ++ ']' :: rest) := by
        rw [hcons]
        exact dropWs_nonws hws0 _
      have harg : dumps (.arr (x :: xs)) ++ rest
          = '[' :: (dumpItems (x :: xs) ++ ']' :: rest) := by
        simp [dumps]
      have hlen' : (dumpItems (x :: xs)).length + 1 < f := by
        simp only [dumps, List.length_cons, List.length_append, List.length_singleton] at hlen
        omega
      rw [harg, parseV_arr_branch f _ c0 _ hdrop hbr0, ← hcons,
        rt_items x xs f rest hlen']
  | .obj [], fuel, rest, hlen, _ => by
    cases fuel with
    | zero => exact absurd hlen (Nat.not_lt_zero _)
    | succ f =>
      have harg : dumps (.obj []) ++ rest = '{' :: '}' :: rest := by
        simp [dumps, dumpMembers]
      rw [harg]
      simp [parseV, dropWs, isWsCh]
  | .obj (kv :: ms), fuel, rest, hlen, _ => by
    cases fuel with
    | zero => exact absurd hlen (Nat.not_lt_zero _)
    | succ f =>
      obtain ⟨tl, htl⟩ := dumpMembers_cons kv ms
      have hcons : dumpMembers (kv :: ms) ++ '}' :: rest
          = '"' :: (tl ++ '}' :: rest) := by
        rw [htl]
        simp
      have hdrop : dropWs (dumpMembers (kv :: ms) ++ '}' :: rest)
          = '"' :: (tl ++ '}' :: rest) := by
        rw [hcons]
        exact dropWs_nonws (by decide) _
      have harg : dumps (.obj (kv :: ms)) ++ rest
          = '{' :: (dumpMembers (kv :: ms) ++ '}' :: rest) := by
        simp [dumps]
      have hlen' : (dumpMembers (kv :: ms)).length + 1 < f := by
        simp only [dumps, List.length_cons, List.length_append, List.length_singleton] at hlen
        omega
      rw [harg, parseV_obj_branch f _ _ hdrop, ← hcons,
        rt_members kv ms f rest hlen']
termination_by v _ _ _ _ => sizeOf v

theorem rt_items : ∀ (x : JVal) (xs : List JVal) (fuel : Nat) (rest : List Char),
    (dumpItems (x :: xs)).length + 1 < fuel →
    parseItems fuel (dumpItems (x :: xs) ++ ']' :: rest) = some (x :: xs, rest)
  | x, [], fuel, rest, hlen => by
    cases fuel with
    | zero => exact absurd hlen (Nat.not_lt_zero _)
    | succ f =>
      have hx : (dumps x).length < f := by
        simp only [dumpItems] at hlen
        omega
      have hv := rt_v x f (']' :: rest) hx rfl
      simp only [parseItems, dumpItems]
      simp [hv, dropWs, isWsCh]
  | x, y :: ys, fuel, rest, hlen => by
    cases fuel with
    | zero => exact absurd hlen (Nat.not_lt_zero _)
    | succ f =>
      have harg : dumpItems (x :: y :: ys) ++ ']' :: rest
          = dumps x ++ (',' :: ' ' :: (dumpItems (y :: ys) ++ ']' :: rest)) := by
        simp [dumpItems]
      have hlite : (dumpItems (x :: y :: ys)).length
          = (dumps x).length + 2 + (dumpItems (y :: ys)).length := by
        simp [dumpItems]
        omega
      have hx : (dumps x).length < f := by omega
      have hv := rt_v x f (',' :: ' ' :: (dumpItems (y :: ys) ++ ']' :: rest)) hx rfl
      have htail := rt_items y ys f rest (by omega)
      obtain ⟨tl, htl⟩ := dumpItems_cons y ys
      obtain ⟨c0, t0, hd0, hws0, _, _⟩ := dumps_head y
      have hdws : dropWs (dumpItems (y :: ys) ++ ']' :: rest)
          = dumpItems (y :: ys) ++ ']' :: rest := by
        have hcons : dumpItems (y :: ys) ++ ']' :: rest
            = c0 :: (t0 ++ tl ++ ']' :: rest) := by
          rw [htl, hd0]
          simp
        rw [hcons]
        exact dropWs_nonws hws0 _
      rw [harg]
      simp only [parseItems]
      simp [hv, dropWs, isWsCh, hdws, htail]
termination_by x xs _ _ _ => sizeOf x + sizeOf xs

theorem rt_members : ∀ (kv : List Char × JVal) (ms : List (List Char × JVal))
    (fuel : Nat) (rest : List Char),
    (dumpMembers (kv :: ms)).length + 1 < fuel →
    parseMembers fuel (dumpMembers (kv :: ms) ++ '}' :: rest) = some (kv :: ms, rest)
  | (k, v), [], fuel, rest, hlen => by
    cases fuel with
    | zero => exact absurd hlen (Nat.not_lt_zero _)
    | succ f =>
      have hlv : (dumps v).length < f := by
        simp only [dumpMembers, dumpString, List.length_append, List.length_cons] at hlen
        omega
      have harg : dumpMembers ((k, v) :: []) ++ '}' :: rest
          = '"' :: (k.flatMap escChar ++ '"' :: (':' :: ' ' :: (dumps v ++ '}' :: rest))) := by
        simp [dumpMembers, dumpString]
      have hv := rt_v v f ('}' :: rest) hlv rfl
      rw [harg]
      simp only [parseMembers]
      rw [dropWs_nonws (by decide)]
      simp [readString_inv k, dropWs, isWsCh, parseV_ws_cons, hv]
  | (k, v), m :: ms, fuel, rest, hlen => by
    cases fuel with
    | zero => exact absurd hlen (Nat.not_lt_zero _)
    | succ f =>
      have hlite : (dumpMembers ((k, v) :: m :: ms)).length
          = (dumpString k).length + 2 + (dumps v).length + 2
            + (dumpMembers (m :: ms)).length := by
        simp [dumpMembers]
        omega
      have hlv : (dumps v).length < f := by omega
      have harg : dumpMembers ((k, v) :: m :: ms) ++ '}' :: rest
          = '"' :: (k.flatMap escChar ++ '"' :: (':' :: ' ' ::
              (dumps v ++ (',' :: ' ' :: (dumpMembers (m :: ms) ++ '}' :: rest))))) := by
        simp [dumpMembers, dumpString]
      have hv := rt_v v f (',' :: ' ' :: (dumpMembers (m :: ms) ++ '}' :: rest)) hlv rfl
      have htail := rt_members m ms f rest (by omega)
      obtain ⟨tl, htl⟩ := dumpMembers_cons m ms
      have hdws : dropWs (dumpMembers (m :: ms) ++ '}' :: rest)
          = dumpMembers (m :: ms) ++ '}' :: rest := by
        have hcons : dumpMembers (m :: ms) ++ '}' :: rest
            = '"' :: (tl ++ '}' :: rest) := by
          rw [htl]
          simp
        rw [hcons]
        exact dropWs_nonws (by decide) _
      rw [harg]
      simp only [parseMembers]
      rw [dropWs_nonws (by decide)]
      simp [readString_inv k, dropWs, isWsCh, parseV_ws_cons, hv, hdws, htail]
termination_by kv ms _ _ _ => sizeOf kv + sizeOf ms

end

/-- The JSON codec round trip: deserializing a serialized payload recovers the
payload, for every structured value. -/
theorem json_loads_dumps (v : JVal) : json_loads (json_dumps v) = some v := by
  have h := rt_v v ((dumps v).length + 1) [] (by omega) rfl
  rw [List.append_nil] at h
  rw [json_loads, json_dumps, h]
  rfl

example : json_loads (json_dumps .null) = some .null := rfl
example : json_loads (json_dumps (.int 42)) = some (.int 42) := rfl
example : json_loads (json_dumps (.int (-7))) = some (.int (-7)) := rfl
example :
    json_loads (json_dumps (.obj [(['a'], .int 1), (['b'], .arr [.str ['x', '"'], .bool true])]))
      = some (.obj [(['a'], .int 1), (['b'], .arr [.str ['x', '"'], .bool true])]) := rfl

/-! ## Python-side errors

The exceptions the embedded operations can raise: the explicit
`RuntimeError("... not initialized")` guards of `event_bus.py` and
`job_queue.py`, the `AttributeError` a bad attribute access raises, and
exceptions propagated from an external collaborator call. -/

inductive PyErr where
  | runtimeError : PyErr
  | attributeError : PyErr
  | collaborator (msg : String) : PyErr
deriving DecidableEq

/-! ## EventBus (`event_bus.py`)

The `events` table is a list of rows in insertion (rowid) order plus the next
AUTOINCREMENT id; `initialized` models whether `self._db` is set (between
`initialize()` and `close()`).  SQLite starts AUTOINCREMENT ids at 1. -/

structure EventRow where
  id : Nat
  event_type : String
  data : List Char
  created_at : Nat
  processed : Bool
deriving DecidableEq

structure EventBusState where
  initialized : Bool
  rows : List EventRow
  next_id : Nat
deriving DecidableEq

/-- The state after `EventBus(db_path)` + `initialize()` on a fresh database. -/
def EventBus.initState : EventBusState := ⟨true, [], 1⟩

/-- `EventBus.publish(event_type, data)`: `INSERT INTO events (event_type,
data, created_at) VALUES (?, json.dumps(data), now)`. -/
def EventBus.publish (event_type : String) (data : JVal) (now : Nat)
    (s : EventBusState) : Except PyErr Unit × EventBusState :=
  if !s.initialized then (.error .runtimeError, s)
  else
    (.ok (),
      { s with
        rows := s.rows ++ [⟨s.next_id, event_type, json_dumps data, now, false⟩]
        next_id := s.next_id + 1 })

/-- The row ordering the `ORDER BY created_at ASC` clauses produce: the
`(status/processed, created_at)` indexes are sorted by key and then by rowid,
so ties in `created_at` come out in insertion order — which is exactly what a
stable sort of the insertion-ordered row list yields. -/
def createdLe (a b : EventRow) : Prop := a.created_at ≤ b.created_at

instance : DecidableRel createdLe := fun a b => Nat.decLe a.created_at b.created_at

/-- The event dict `consume` builds from a row (`data` run through
`json.loads`). -/
structure ConsumedEvent where
  id : Nat
  event_type : String
  data : Option JVal
  created_at : Nat

/-- `EventBus.consume(limit, mark_processed, since)`: select unprocessed rows
(optionally with `created_at > since`), oldest first, up to `limit`; if
`mark_processed`, flip the flag of the returned rows in the same call. -/
def EventBus.consume (limit : Nat) (mark_processed : Bool) (since : Option Nat)
    (s : EventBusState) : Except PyErr (List ConsumedEvent) × EventBusState :=
  if !s.initialized then (.error .runtimeError, s)
  else
    let sel := s.rows.filter fun r =>
      !r.processed && (match since with
        | some t => decide (t < r.created_at)
        | none => true)
    let taken := (sel.insertionSort createdLe).take limit
    let events := taken.map fun r =>
      ({ id := r.id
         event_type := r.event_type
         data := json_loads r.data
         created_at := r.created_at } : ConsumedEvent)
    let ids := taken.map (·.id)
    let rows' :=
      if mark_processed && !ids.isEmpty then
        s.rows.map fun r => if ids.contains r.id then { r with processed := true } else r
      else s.rows
    (.ok events, { s with rows := rows' })

/-- `EventBus.cleanup(older_than_hours)`: `DELETE FROM events WHERE
created_at < now - older_than_hours`, returning the deleted count. -/
def EventBus.cleanup (older_than_hours : Nat) (now : Nat)
    (s : EventBusState) : Except PyErr Nat × EventBusState :=
  if !s.initialized then (.error .runtimeError, s)
  else
    let cutoff := now - older_than_hours * 3600
    let keep := s.rows.filter fun r => !decide (r.created_at < cutoff)
    (.ok (s.rows.length - keep.length), { s with rows := keep })

/-- `EventBus.get_pending_count()`: `SELECT COUNT(*) FROM events WHERE
processed = 0`. -/
def EventBus.get_pending_count (s : EventBusState) :
    Except PyErr Nat × EventBusState :=
  if !s.initialized then (.error .runtimeError, s)
  else (.ok (s.rows.filter fun r => !r.processed).length, s)

/-! ## JobQueue (`job_queue.py`) -/

inductive JobStatus where
  | pending : JobStatus
  | processing : JobStatus
  | completed : JobStatus
  | failed : JobStatus
deriving DecidableEq

structure JobRow where
  id : Nat
  job_type : String
  payload : List Char
  status : JobStatus
  created_at : Nat
  started_at : Option Nat
  completed_at : Option Nat
  error_message : Option String
  retry_count : Nat
deriving DecidableEq

structure JobQueueState where
  initialized : Bool
  rows : List JobRow
  next_id : Nat
deriving DecidableEq

/-- The state after `JobQueue(db_path)` + `initialize()` on a fresh database. -/
def JobQueue.initState : JobQueueState := ⟨true, [], 1⟩

/-- `JobQueue.enqueue(job_type, payload)`: insert a `pending` row with
`json.dumps(payload)` and return its id. -/
def JobQueue.enqueue (job_type : String) (payload : JVal) (now : Nat)
    (s : JobQueueState) : Except PyErr Nat × JobQueueState :=
  if !s.initialized then (.error .runtimeError, s)
  else
    (.ok s.next_id,
      { s with
        rows := s.rows ++
          [⟨s.next_id, job_type, json_dumps payload, .pending, now, none, none, none, 0⟩]
        next_id := s.next_id + 1 })

def jobCreatedLe (a b : JobRow) : Prop := a.created_at ≤ b.created_at

instance : DecidableRel jobCreatedLe := fun a b => Nat.decLe a.created_at b.created_at

/-- The job dict `dequeue` returns (`payload` run through `json.loads`). -/
structure DequeuedJob where
  id : Nat
  job_type : String
  payload : Option JVal
  created_at : Nat
  retry_count : Nat

/-- `JobQueue.dequeue(job_type?)`: select the oldest `pending` row (optionally
filtered by type), mark it `processing` and stamp `started_at` in the same
call, and return its dict — or `None` when no row qualifies. -/
def JobQueue.dequeue (job_type : Option String) (now : Nat)
    (s : JobQueueState) : Except PyErr (Option DequeuedJob) × JobQueueState :=
  if !s.initialized then (.error .runtimeError, s)
  else
    let cand := s.rows.filter fun r =>
      decide (r.status = .pending) && (match job_type with
        | some t => decide (r.job_type = t)
        | none => true)
    match (cand.insertionSort jobCreatedLe).head? with
    | none => (.ok none, s)
    | some r0 =>
      let rows' := s.rows.map fun r =>
        if r.id = r0.id then { r with status := .processing, started_at := some now } else r
      (.ok (some
        { id := r0.id
          job_type := r0.job_type
          payload := json_loads r0.payload
          created_at := r0.created_at
          retry_count := r0.retry_count }),
        { s with rows := rows' })

/-- `JobQueue.complete_job(job_id, result)`: `UPDATE jobs SET status =
'completed', completed_at = now WHERE id = ?`.  The source builds
`json.dumps(result)` into a local `update_data` dict, but the UPDATE
statement writes only `status` and `completed_at`, so the stored payload is
left as it was; the `result` argument does not reach the database. -/
def JobQueue.complete_job (job_id : Nat) (_result : Option JVal) (now : Nat)
    (s : JobQueueState) : Except PyErr Unit × JobQueueState :=
  if !s.initialized then (.error .runtimeError, s)
  else
    (.ok (),
      { s with rows := s.rows.map fun r =>
          if r.id = job_id then { r with status := .completed, completed_at := some now }
          else r })

/-- `JobQueue.fail_job(job_id, error_message)`: `UPDATE jobs SET status =
'failed', completed_at = now, error_message = ? WHERE id = ?`. -/
def JobQueue.fail_job (job_id : Nat) (error_message : String) (now : Nat)
    (s : JobQueueState) : Except PyErr Unit × JobQueueState :=
  if !s.initialized then (.error .runtimeError, s)
  else
    (.ok (),
      { s with rows := s.rows.map fun r =>
          if r.id = job_id then
            { r with
              status := .failed
              completed_at := some now
              error_message := some error_message }
          else r })

/-- `JobQueue.cleanup(older_than_hours)`: delete `completed`/`failed` rows
whose `completed_at` is older than the window (a NULL `completed_at` never
satisfies the SQL `<`). -/
def JobQueue.cleanup (older_than_hours : Nat) (now : Nat)
    (s : JobQueueState) : Except PyErr Nat × JobQueueState :=
  if !s.initialized then (.error .runtimeError, s)
  else
    let cutoff := now - older_than_hours * 3600
    let keep := s.rows.filter fun r =>
      !((decide (r.status = .completed) || decide (r.status = .failed)) &&
        (match r.completed_at with
          | some t => decide (t < cutoff)
          | none => false))
    (.ok (s.rows.length - keep.length), { s with rows := keep })

/-! ## SessionManager (`llm_integration/session_manager.py`)

The manager keeps four insertion-ordered dicts keyed by session id
(`active_sessions`, `session_executors`, `session_locks`,
`conversation_histories`); Python dicts iterate in insertion order, which is
what `get_user_active_session`'s scan relies on.

The external `AgentExecutor` collaborator is a parameter of each embedded
operation: the outcome a collaborator call would have (a value, or a raised
exception) is passed in as an `Except String _`, since the manager's logic
only branches on that outcome.

`AgentSession.last_activity` is dynamically typed in the source: the
dataclass default is `datetime.now()` (a `datetime`), but the manager
overwrites it with `time.time()` (a `float`) after a successful start,
command or message.  `PyTimeVal` keeps the two apart, because only a
`datetime` has a `.timestamp()` method — calling it on a `float` raises
`AttributeError`. -/

/-- A Python value holding a point in time: a `datetime` or a `float` of
seconds since the epoch. -/
inductive PyTimeVal where
  | dt (t : Nat) : PyTimeVal
  | real (t : Nat) : PyTimeVal
deriving DecidableEq

/-- The `.timestamp()` attribute access: defined on `datetime`, an
`AttributeError` on `float`. -/
def PyTimeVal.timestamp : PyTimeVal → Except PyErr Nat
  | .dt t => .ok t
  | .real _ => .error .attributeError

inductive SessionStatus where
  | starting : SessionStatus
  | active : SessionStatus
  | idle : SessionStatus
  | stopping : SessionStatus
  | stopped : SessionStatus
  | error : SessionStatus
deriving DecidableEq

/-- The fields of `models.AgentSession` the manager reads or writes. -/
structure AgentSession where
  session_id : String
  agent_id : String
  user_id : String
  claude_process_id : String
  workspace_path : String
  status : SessionStatus
  created_at : Nat
  last_activity : PyTimeVal
deriving DecidableEq

/-- The fields of `models.User` that `create_agent_session` reads (the rest
of the profile only feeds the external config converter). -/
structure User where
  user_id : String
  name : String
  role : String
deriving DecidableEq

/-- One conversation-history message: role and content. -/
structure ChatMsg where
  role : String
  content : String
deriving DecidableEq

/-- Insertion-ordered dict: first-match lookup, in-place overwrite or append
on assignment, key-preserving iteration order. -/
def dictFind {β : Type} (k : String) : List (String × β) → Option β
  | [] => none
  | (k', v) :: m => if k' = k then some v else dictFind k m

def dictInsert {β : Type} (k : String) (v : β) : List (String × β) → List (String × β)
  | [] => [(k, v)]
  | (k', v') :: m => if k' = k then (k, v) :: m else (k', v') :: dictInsert k v m

def dictRemove {β : Type} (k : String) (m : List (String × β)) : List (String × β) :=
  m.filter fun p => !decide (p.1 = k)

structure SessionManagerState where
  active_sessions : List (String × AgentSession)
  session_executors : List (String × String)
  session_locks : List String
  conversation_histories : List (String × List ChatMsg)
deriving DecidableEq

/-- A fresh `SessionManager()`. -/
def SessionManager.initState : SessionManagerState := ⟨[], [], [], []⟩

/-- `SessionManager.get_user_active_session(user_id)`: the first registered
session of that user whose status is `ACTIVE`, scanning in insertion order. -/
def SessionManager.get_user_active_session (user_id : String)
    (s : SessionManagerState) : Option AgentSession :=
  (s.active_sessions.find? fun p =>
    decide (p.2.user_id = user_id) && decide (p.2.status = .active)).map (·.2)

/-- `SessionManager._cleanup_session(session_id)`: set the session object's
status to `STOPPED`, then delete the id from all four dicts (the stopped
object itself is discarded with its map entry). -/
def SessionManager.cleanup_session (session_id : String)
    (s : SessionManagerState) : SessionManagerState :=
  { active_sessions := dictRemove session_id s.active_sessions
    session_executors := dictRemove session_id s.session_executors
    session_locks := s.session_locks.filter fun k => !decide (k = session_id)
    conversation_histories := dictRemove session_id s.conversation_histories }

/-- `SessionManager.create_agent_session(user, workspace_path, provider)`.
`new_sid` is the `uuid4` the `AgentSession` dataclass would draw;
`start_outcome` is the result of the collaborator's
`executor.start_agent_session()` (`.ok process_id`, or `.error` for a raised
exception); `now` is the clock.  If the user already has an `ACTIVE` session
its id is returned unchanged; otherwise the session, its executor, lock and
fresh history are registered, the executor is started, and on success the
session becomes `ACTIVE` with `last_activity = time.time()` (a float!).  A
start failure removes the partially registered session and re-raises. -/
def SessionManager.create_agent_session (user : User) (workspace_path : String)
    (new_sid : String) (start_outcome : Except String String) (now : Nat)
    (s : SessionManagerState) : Except PyErr String × SessionManagerState :=
  match SessionManager.get_user_active_session user.user_id s with
  | some existing => (.ok existing.session_id, s)
  | none =>
    let sess : AgentSession :=
      { session_id := new_sid
        agent_id := "agent_" ++ user.user_id
        user_id := user.user_id
        claude_process_id := ""
        workspace_path := workspace_path
        status := .starting
        created_at := now
        last_activity := .dt now }
    let s1 : SessionManagerState :=
      { active_sessions := dictInsert new_sid sess s.active_sessions
        session_executors := dictInsert new_sid ("executor:" ++ new_sid) s.session_executors
        session_locks := s.session_locks ++ [new_sid]
        conversation_histories := dictInsert new_sid [] s.conversation_histories }
    match start_outcome with
    | .ok pid =>
      let sess' : AgentSession :=
        { sess with
          claude_process_id := pid
          status := .active
          last_activity := .real now }
      (.ok new_sid,
        { s1 with active_sessions := dictInsert new_sid sess' s1.active_sessions })
    | .error e => (.error (.collaborator e), SessionManager.cleanup_session new_sid s1)

/-- The structured result dict of `execute_with_agent` /
`send_message_to_agent`: `{"success": ..., "error": ...}` plus whatever the
collaborator returned on success. -/
structure CmdResult where
  success : Bool
  error : Option String
  response : Option String
deriving DecidableEq

/-- `SessionManager.execute_with_agent(session_id, command)`.  `exec_outcome`
is the collaborator's `executor.execute_command` outcome; `now` the clock.
An unknown id yields `{"success": False, "error": f"Session {id} not
found"}`; a non-`ACTIVE` session a corresponding failure dict; a raised
collaborator exception flips the session to `ERROR` and is converted into a
failure dict — nothing is raised past the manager. -/
def SessionManager.execute_with_agent (session_id : String) (_command : String)
    (exec_outcome : Except String CmdResult) (now : Nat)
    (s : SessionManagerState) : Except PyErr CmdResult × SessionManagerState :=
  match dictFind session_id s.active_sessions with
  | none =>
    (.ok { success := false
           error := some ("Session " ++ session_id ++ " not found")
           response := none }, s)
  | some sess =>
    if sess.status ≠ .active then
      (.ok { success := false
             error := some ("Session " ++ session_id ++ " is not active")
             response := none }, s)
    else
      match exec_outcome with
      | .ok res =>
        (.ok res,
          { s with active_sessions :=
              (dictInsert session_id { sess with last_activity := .real now }
                s.active_sessions) })
      | .error e =>
        (.ok { success := false, error := some e, response := none },
          { s with active_sessions :=
              (dictInsert session_id { sess with status := .error } s.active_sessions) })

/-- `SessionManager.stop_agent_session(session_id)`.  Unknown id: `False`.
Otherwise the session is flipped to `STOPPING`, the collaborator's
`stop_session` is called; if it returns a boolean the session is cleaned up
(removed from all four dicts) and that boolean returned; if it raises, the
exception is caught, `False` is returned — and no cleanup happens. -/
def SessionManager.stop_agent_session (session_id : String)
    (stop_outcome : Except String Bool)
    (s : SessionManagerState) : Except PyErr Bool × SessionManagerState :=
  match dictFind session_id s.active_sessions with
  | none => (.ok false, s)
  | some sess =>
    let s1 : SessionManagerState :=
      { s with active_sessions :=
          (dictInsert session_id { sess with status := .stopping } s.active_sessions) }
    match stop_outcome with
    | .ok b => (.ok b, SessionManager.cleanup_session session_id s1)
    | .error _ => (.ok false, s1)

/-- The first scan of `cleanup_inactive_sessions`: collect the ids whose
`last_activity` is older than the timeout.  The subtraction
`current_time - session.last_activity.timestamp()` is float arithmetic, so it
is embedded over `Int`; the `.timestamp()` attribute access raises
`AttributeError` when `last_activity` holds a float, aborting the whole scan. -/
def collectInactive (now : Nat) (idle_timeout : Nat) :
    List (String × AgentSession) → Except PyErr (List String)
  | [] => .ok []
  | (sid, sess) :: rest =>
    match sess.last_activity.timestamp with
    | .error e => .error e
    | .ok t =>
      match collectInactive now idle_timeout rest with
      | .error e => .error e
      | .ok tail =>
        if (now : Int) - (t : Int) > (idle_timeout : Int) then .ok (sid :: tail)
        else .ok tail

/-- `SessionManager.cleanup_inactive_sessions(idle_timeout=1800)`: scan all
live sessions for ids idle longer than the timeout, then stop each collected
id (stop errors are caught and logged per id).  `stop_outcome` gives the
collaborator stop result per session id. -/
def SessionManager.cleanup_inactive_sessions (idle_timeout : Nat) (now : Nat)
    (stop_outcome : String → Except String Bool)
    (s : SessionManagerState) : Except PyErr Unit × SessionManagerState :=
  match collectInactive now idle_timeout s.active_sessions with
  | .error e => (.error e, s)
  | .ok inactive =>
    (.ok (),
      inactive.foldl
        (fun st sid => (SessionManager.stop_agent_session sid (stop_outcome sid) st).2) s)

/-! ## Derived operations and observation helpers -/

/-- Status of the job row with a given id (`SELECT status FROM jobs WHERE id = ?`). -/
def jobStatusOf (s : JobQueueState) (job_id : Nat) : Option JobStatus :=
  (s.rows.find? fun r => r.id = job_id).map (·.status)

/-- One public JobQueue call, with the clock reading it was made at. -/
inductive JQOp where
  | enq (job_type : String) (payload : JVal) (now : Nat) : JQOp
  | deq (job_type : Option String) (now : Nat) : JQOp
  | complete (job_id : Nat) (result : Option JVal) (now : Nat) : JQOp
  | fail (job_id : Nat) (msg : String) (now : Nat) : JQOp
  | clean (hours : Nat) (now : Nat) : JQOp

/-- The state a call leaves behind (its return value dropped). -/
def JQOp.apply (s : JobQueueState) : JQOp → JobQueueState
  | .enq jt p t => (JobQueue.enqueue jt p t s).2
  | .deq jt t => (JobQueue.dequeue jt t s).2
  | .complete job_id res t => (JobQueue.complete_job job_id res t s).2
  | .fail job_id m t => (JobQueue.fail_job job_id m t s).2
  | .clean h t => (JobQueue.cleanup h t s).2

/-- Whether the call is `complete_job` or `fail_job` on this job id. -/
def JQOp.finalizes (op : JQOp) (job_id : Nat) : Prop :=
  match op with
  | .complete j _ _ => j = job_id
  | .fail j _ _ => j = job_id
  | _ => False

instance : ∀ (op : JQOp) (job_id : Nat), Decidable (op.finalizes job_id) := by
  intro op job_id
  cases op <;> simp only [JQOp.finalizes] <;> infer_instance

/-- The well-formedness the queue maintains: row ids are distinct and below
the AUTOINCREMENT counter. -/
def JQWF (s : JobQueueState) : Prop :=
  (s.rows.map (·.id)).Nodup ∧ ∀ r ∈ s.rows, r.id < s.next_id

/-- Publish each pair in order; the `i`-th call happens at clock `tf i`. -/
def publishSeq (ps : List (String × JVal)) (tf : Nat → Nat) (i : Nat)
    (s : EventBusState) : EventBusState :=
  match ps with
  | [] => s
  | p :: rest => publishSeq rest tf (i + 1) (EventBus.publish p.1 p.2 (tf i) s).2

/-- The rows those publishes append, ids from `nid` up. -/
def builtEventRows (ps : List (String × JVal)) (tf : Nat → Nat) (i nid : Nat) :
    List EventRow :=
  match ps with
  | [] => []
  | p :: rest => ⟨nid, p.1, json_dumps p.2, tf i, false⟩ :: builtEventRows rest tf (i + 1) (nid + 1)

/-- The event dicts a full consume of those publishes must return. -/
def expectedEvents (ps : List (String × JVal)) (tf : Nat → Nat) (i nid : Nat) :
    List ConsumedEvent :=
  match ps with
  | [] => []
  | p :: rest => ⟨nid, p.1, some p.2, tf i⟩ :: expectedEvents rest tf (i + 1) (nid + 1)

/-- Enqueue each payload in order under one job type, the `i`-th at `tf i`. -/
def enqueueSeq (qs : List JVal) (jt : String) (tf : Nat → Nat) (i : Nat)
    (s : JobQueueState) : JobQueueState :=
  match qs with
  | [] => s
  | p :: rest => enqueueSeq rest jt tf (i + 1) (JobQueue.enqueue jt p (tf i) s).2

/-- The rows those enqueues append, ids from `nid` up. -/
def builtJobRows (qs : List JVal) (jt : String) (tf : Nat → Nat) (i nid : Nat) :
    List JobRow :=
  match qs with
  | [] => []
  | p :: rest =>
    ⟨nid, jt, json_dumps p, .pending, tf i, none, none, none, 0⟩
      :: builtJobRows rest jt tf (i + 1) (nid + 1)

/-- `k` successive dequeue calls (no type filter), the `i`-th at `td i`,
collecting each call's return value. -/
def dequeueSeq : Nat → (Nat → Nat) → Nat → JobQueueState →
    List (Except PyErr (Option DequeuedJob)) × JobQueueState
  | 0, _, _, s => ([], s)
  | k + 1, td, i, s =>
    let r := JobQueue.dequeue none (td i) s
    let p := dequeueSeq k td (i + 1) r.2
    (r.1 :: p.1, p.2)

/-- The values those dequeues must return: the enqueued jobs, oldest first. -/
def expectedDequeues (qs : List JVal) (jt : String) (tf : Nat → Nat) (i nid : Nat) :
    List (Except PyErr (Option DequeuedJob)) :=
  match qs with
  | [] => []
  | p :: rest =>
    .ok (some ⟨nid, jt, some p, tf i, 0⟩) :: expectedDequeues rest jt tf (i + 1) (nid + 1)

/-! ## Concrete fixtures (inputs for witnesses and counterexamples) -/

def jpay : JVal := .obj [(['u', 's', 'e', 'r'], .str ['u', '1'])]

def jres : JVal := .obj [(['p', 'a', 't', 'h'], .str ['p', '.', 'p', 'n', 'g'])]

/-- One `avatar_generation` job enqueued at t=10. -/
def jqS1 : JobQueueState :=
  (JobQueue.enqueue "avatar_generation" jpay 10 JobQueue.initState).2

/-- ... then dequeued at t=11 (job 1 is `processing`). -/
def jqS2 : JobQueueState := (JobQueue.dequeue none 11 jqS1).2

/-- ... then completed at t=12 with a result dict. -/
def jqCompleted : JobQueueState := (JobQueue.complete_job 1 (some jres) 12 jqS2).2

/-- The row of job 1 in `jqCompleted`. -/
def jqRow1 : JobRow :=
  ⟨1, "avatar_generation", json_dumps jpay, .completed, 10, some 11, some 12, none, 0⟩

/-- The dict the first dequeue of `jqS1` returns. -/
def jdq1 : DequeuedJob := ⟨1, "avatar_generation", some jpay, 10, 0⟩

/-- `jqS2` with one more pending job (id 2) enqueued at t=20. -/
def jqT : JobQueueState := JQOp.apply jqS2 (.enq "cleanup_task" .null 20)

/-- The dict dequeuing `jqT` returns: job 2, not job 1 again. -/
def jdq2 : DequeuedJob := ⟨2, "cleanup_task", some .null, 20, 0⟩

def user1 : User := ⟨"u1", "Alice", "developer"⟩

/-- A manager holding the one session `create_agent_session(user1)` made at
t=100 (status `active`, `last_activity = time.time()`, i.e. a float). -/
def smAfterCreate : SessionManagerState :=
  (SessionManager.create_agent_session user1 "/ws" "sid1" (.ok "pid7") 100
    SessionManager.initState).2

/-- The session object registered in `smAfterCreate`. -/
def sess1Active : AgentSession :=
  ⟨"sid1", "agent_u1", "u1", "pid7", "/ws", .active, 100, .real 100⟩

/-- ... after `stop_agent_session("sid1")` with a clean collaborator stop. -/
def smAfterStop : SessionManagerState :=
  (SessionManager.stop_agent_session "sid1" (.ok true) smAfterCreate).2

example : smAfterCreate.active_sessions = [("sid1", sess1Active)] := rfl
example : smAfterStop.active_sessions = [] := rfl
example : jqS2.rows =
    [⟨1, "avatar_generation", json_dumps jpay, .processing, 10, some 11, none, none, 0⟩] := rfl

/-! ## Dictionary and row-lookup lemmas -/

theorem dictFind_insert_self {β : Type} (k : String) (v : β) (m : List (String × β)) :
    dictFind k (dictInsert k v m) = some v := by
  induction m with
  | nil => simp [dictInsert, dictFind]
  | cons p m ih =>
    obtain ⟨k', v'⟩ := p
    by_cases h : k' = k
    · simp [dictInsert, dictFind, h]
    · simp [dictInsert, dictFind, h, ih]

theorem dictFind_remove_self {β : Type} (k : String) (m : List (String × β)) :
    dictFind k (dictRemove k m) = none := by
  induction m with
  | nil => rfl
  | cons p m ih =>
    obtain ⟨k', v'⟩ := p
    by_cases h : k' = k
    · simpa [dictRemove, List.filter_cons, h] using ih
    · simpa [dictRemove, List.filter_cons, h, dictFind] using ih

theorem dictInsert_not_found {β : Type} (k : String) (v : β) (m : List (String × β))
    (h : dictFind k m = none) : dictInsert k v m = m ++ [(k, v)] := by
  induction m with
  | nil => rfl
  | cons p m ih =>
    obtain ⟨k', v'⟩ := p
    by_cases hk : k' = k
    · simp [dictFind, hk] at h
    · simp only [dictFind, hk, if_false] at h
      simp [dictInsert, hk, ih h]

theorem dictInsert_replace_end {β : Type} (k : String) (v w : β) (m : List (String × β))
    (h : dictFind k m = none) :
    dictInsert k v (m ++ [(k, w)]) = m ++ [(k, v)] := by
  induction m with
  | nil => simp [dictInsert]
  | cons p m ih =>
    obtain ⟨k', v'⟩ := p
    by_cases hk : k' = k
    · simp [dictFind, hk] at h
    · simp only [dictFind, hk, if_false] at h
      simp [dictInsert, hk, ih h]

/-- Looking a job id up commutes with a per-row update that never changes ids
(the shape of every `UPDATE ... WHERE id = ?`). -/
theorem find?_map_preserve_id (rows : List JobRow) (f : JobRow → JobRow)
    (hf : ∀ r, (f r).id = r.id) (job_id : Nat) :
    (rows.map f).find? (fun r => r.id = job_id)
      = (rows.find? (fun r => r.id = job_id)).map f := by
  rw [List.find?_map]
  have hp : ((fun r : JobRow => decide (r.id = job_id)) ∘ f)
      = fun r : JobRow => decide (r.id = job_id) := by
    funext r
    simp [hf]
  rw [hp]

/-- Looking a job id up survives a row deletion that keeps the found row
(the shape of `DELETE ... WHERE <terminal>` against a live row). -/
theorem find?_filter_keep (rows : List JobRow) (keep : JobRow → Bool) (job_id : Nat)
    (r : JobRow) (hfind : rows.find? (fun x => x.id = job_id) = some r)
    (hkeep : keep r = true) :
    (rows.filter keep).find? (fun x => x.id = job_id) = some r := by
  induction rows with
  | nil => simp at hfind
  | cons a l ih =>
    by_cases h : a.id = job_id
    · rw [List.find?_cons_of_pos _ (by simp [h])] at hfind
      obtain rfl : a = r := by simpa using hfind
      rw [List.filter_cons, if_pos hkeep, List.find?_cons_of_pos _ (by simp [h])]
    · rw [List.find?_cons_of_neg _ (by simp [h])] at hfind
      rw [List.filter_cons]
      by_cases hk : keep a
      · rw [if_pos hk, List.find?_cons_of_neg _ (by simp [h])]
        exact ih hfind
      · rw [if_neg hk]
        exact ih hfind

/-! ## Claim C10 -/

/-- C10: every public operation of EventBus (`publish`, `consume`, `cleanup`,
`get_pending_count`) and of JobQueue (`enqueue`, `dequeue`, `complete_job`,
`fail_job`, `cleanup`) raises `RuntimeError` when the instance is not
initialized (before `initialize()` / after `close()`, i.e. `self._db` unset),
whatever the stored rows are — and leaves the underlying store unchanged;
none of them silently succeeds. -/
theorem uninitialized_ops_raise (er : List EventRow) (en : Nat)
    (jr : List JobRow) (jn : Nat) (et : String) (p : JVal)
    (now lim hrs job_id : Nat) (mark : Bool) (since : Option Nat)
    (jt : Option String) (res : Option JVal) (msg : String) :
    EventBus.publish et p now ⟨false, er, en⟩ = (.error .runtimeError, ⟨false, er, en⟩) ∧
    EventBus.consume lim mark since ⟨false, er, en⟩ = (.error .runtimeError, ⟨false, er, en⟩) ∧
    EventBus.cleanup hrs now ⟨false, er, en⟩ = (.error .runtimeError, ⟨false, er, en⟩) ∧
    EventBus.get_pending_count ⟨false, er, en⟩ = (.error .runtimeError, ⟨false, er, en⟩) ∧
    JobQueue.enqueue et p now ⟨false, jr, jn⟩ = (.error .runtimeError, ⟨false, jr, jn⟩) ∧
    JobQueue.dequeue jt now ⟨false, jr, jn⟩ = (.error .runtimeError, ⟨false, jr, jn⟩) ∧
    JobQueue.complete_job job_id res now ⟨false, jr, jn⟩
      = (.error .runtimeError, ⟨false, jr, jn⟩) ∧
    JobQueue.fail_job job_id msg now ⟨false, jr, jn⟩
      = (.error .runtimeError, ⟨false, jr, jn⟩) ∧
    JobQueue.cleanup hrs now ⟨false, jr, jn⟩ = (.error .runtimeError, ⟨false, jr, jn⟩) :=
  ⟨rfl, rfl, rfl, rfl, rfl, rfl, rfl, rfl, rfl⟩

/-! ## Claim C8 -/

/-- C8: for a session id absent from the live session set, and any command,
`execute_with_agent` returns the structured failure
`{"success": False, "error": f"Session {id} not found"}` without raising, and
leaves the manager's state untouched. -/
theorem execute_with_agent_not_found (s : SessionManagerState)
    (session_id command : String) (outcome : Except String CmdResult) (now : Nat)
    (h : dictFind session_id s.active_sessions = none) :
    SessionManager.execute_with_agent session_id command outcome now s
      = (.ok { success := false
               error := some ("Session " ++ session_id ++ " not found")
               response := none }, s) := by
  simp [SessionManager.execute_with_agent, h]

/-- C8's witness: the id of the session stopped in `smAfterStop` is gone, and
a command against it comes back as the structured not-found failure with the
state unchanged. -/
theorem execute_with_agent_not_found_witness :
    SessionManager.execute_with_agent "sid1" "summarize today"
        (.ok ⟨true, none, some "done"⟩) 2000 smAfterStop
      = (.ok { success := false
               error := some ("Session " ++ "sid1" ++ " not found")
               response := none }, smAfterStop) :=
  execute_with_agent_not_found smAfterStop "sid1" "summarize today"
    (.ok ⟨true, none, some "done"⟩) 2000 (by decide)

/-! ## Claim C2 -/

/-- C2: the code bug, evaluated.  After `enqueue("avatar_generation", jpay)`,
`dequeue()`, `complete_job(1, jres)`, the job row is `completed` with
`completed_at` stamped — but its stored payload is still the serialization of
the enqueue payload, not of the result: the source builds
`update_data["payload"] = json.dumps(result)` and then issues an UPDATE that
writes only `status` and `completed_at`. -/
theorem complete_job_leaves_payload :
    jqCompleted.rows.find? (fun r => r.id = 1) = some jqRow1 ∧
    jqRow1.status = .completed ∧
    jqRow1.completed_at = some 12 ∧
    jqRow1.payload = json_dumps jpay ∧
    json_dumps jpay ≠ json_dumps jres := by
  refine ⟨by decide, rfl, rfl, rfl, by decide⟩

/-! ## Claim C3 -/

/-- C3: the code bug, evaluated.  `smAfterCreate` holds the one session
`create_agent_session` made, whose `last_activity` was last written as
`time.time()` — a float.  Its age (at t=999999, far beyond the 1800s
timeout) makes it reapable per the claim, but
`cleanup_inactive_sessions` calls `session.last_activity.timestamp()`, an
attribute a float does not have: the call raises `AttributeError` and stops
and removes nothing. -/
theorem cleanup_inactive_sessions_attribute_error :
    SessionManager.cleanup_inactive_sessions 1800 999999 (fun _ => .ok true) smAfterCreate
      = (.error .attributeError, smAfterCreate) ∧
    sess1Active.last_activity = .real 100 ∧
    dictFind "sid1" smAfterCreate.active_sessions = some sess1Active :=
  ⟨rfl, rfl, by decide⟩

/-! ## Claim C1 -/

/-- C1's counterexample: job 1 of `jqCompleted` has reached the terminal
status `completed`, yet `fail_job(1, "boom")` changes its terminal status to
`failed` — not a no-op, not an error. -/
theorem fail_job_overwrites_completed_cex :
    jobStatusOf jqCompleted 1 = some .completed ∧
    (JobQueue.fail_job 1 "boom" 13 jqCompleted).1 = .ok () ∧
    jobStatusOf (JobQueue.fail_job 1 "boom" 13 jqCompleted).2 1 = some .failed := by
  refine ⟨by decide, rfl, by decide⟩

/-- C1 (amended): terminal transitions are not protected.  `complete_job` and
`fail_job` overwrite the row found for the given id unconditionally —
`fail_job` sets status `failed`, stamps `completed_at` and stores the
message, and `complete_job` sets status `completed` and stamps
`completed_at`, whatever status (including a terminal one) the job had. -/
theorem terminal_fields_overwritten (s : JobQueueState) (job_id : Nat)
    (msg : String) (res : Option JVal) (now : Nat) (r : JobRow)
    (hinit : s.initialized = true)
    (hfind : s.rows.find? (fun row => row.id = job_id) = some r) :
    ((JobQueue.fail_job job_id msg now s).2).rows.find? (fun row => row.id = job_id)
      = some { r with
               status := .failed
               completed_at := some now
               error_message := some msg } ∧
    ((JobQueue.complete_job job_id res now s).2).rows.find? (fun row => row.id = job_id)
      = some { r with status := .completed, completed_at := some now } := by
  have hid : r.id = job_id := by simpa using List.find?_some hfind
  constructor
  · simp only [JobQueue.fail_job, hinit, Bool.not_true, Bool.false_eq_true, if_false]
    rw [find?_map_preserve_id _ _ (fun row => by by_cases h : row.id = job_id <;> simp [h])
      job_id, hfind]
    simp [hid]
  · simp only [JobQueue.complete_job, hinit, Bool.not_true, Bool.false_eq_true, if_false]
    rw [find?_map_preserve_id _ _ (fun row => by by_cases h : row.id = job_id <;> simp [h])
      job_id, hfind]
    simp [hid]

/-- C1's witness: the amended statement at the concrete completed job. -/
theorem terminal_fields_overwritten_witness :
    ((JobQueue.fail_job 1 "boom" 13 jqCompleted).2).rows.find? (fun row => row.id = 1)
      = some { jqRow1 with
               status := .failed
               completed_at := some 13
               error_message := some "boom" } ∧
    ((JobQueue.complete_job 1 (some jres) 13 jqCompleted).2).rows.find?
        (fun row => row.id = 1)
      = some { jqRow1 with status := .completed, completed_at := some 13 } :=
  terminal_fields_overwritten jqCompleted 1 "boom" (some jres) 13 jqRow1 rfl (by decide)

/-! ## Claim C7 -/

/-- C7's counterexample: the collaborator's stop call raising an exception
does not remove the session: `stop_agent_session` catches it, returns
`False`, and leaves the session registered with status `stopping` (its
executor, lock and history also stay). -/
theorem stop_exception_keeps_session_cex :
    (SessionManager.stop_agent_session "sid1" (.error "net down") smAfterCreate).1
      = .ok false ∧
    dictFind "sid1"
        ((SessionManager.stop_agent_session "sid1" (.error "net down") smAfterCreate).2).active_sessions
      = some { sess1Active with status := .stopping } ∧
    ((SessionManager.stop_agent_session "sid1" (.error "net down") smAfterCreate).2).session_executors
      = smAfterCreate.session_executors :=
  ⟨rfl, by decide, rfl⟩

/-- C7 (amended): for a registered session id, `stop_agent_session`
transitions the session to `stopping` and asks the collaborator to stop the
handle.  When the stop call returns (`True` or `False`), the session is
removed from the manager's maps together with its executor, lock and
conversation history, and the stop result is returned.  When the stop call
raises, the exception is caught, `False` is returned, and the session
remains registered in status `stopping` with its executor, lock and history
untouched. -/
theorem stop_agent_session_outcomes (s : SessionManagerState) (sid : String)
    (sess : AgentSession) (b : Bool) (e : String)
    (h : dictFind sid s.active_sessions = some sess) :
    (SessionManager.stop_agent_session sid (.ok b) s).1 = .ok b ∧
    dictFind sid ((SessionManager.stop_agent_session sid (.ok b) s).2).active_sessions
      = none ∧
    dictFind sid ((SessionManager.stop_agent_session sid (.ok b) s).2).session_executors
      = none ∧
    sid ∉ ((SessionManager.stop_agent_session sid (.ok b) s).2).session_locks ∧
    dictFind sid
        ((SessionManager.stop_agent_session sid (.ok b) s).2).conversation_histories
      = none ∧
    (SessionManager.stop_agent_session sid (.error e) s).1 = .ok false ∧
    dictFind sid
        ((SessionManager.stop_agent_session sid (.error e) s).2).active_sessions
      = some { sess with status := .stopping } ∧
    ((SessionManager.stop_agent_session sid (.error e) s).2).session_executors
      = s.session_executors ∧
    ((SessionManager.stop_agent_session sid (.error e) s).2).session_locks
      = s.session_locks ∧
    ((SessionManager.stop_agent_session sid (.error e) s).2).conversation_histories
      = s.conversation_histories := by
  refine ⟨?_, ?_, ?_, ?_, ?_, ?_, ?_, ?_, ?_, ?_⟩ <;>
    simp [SessionManager.stop_agent_session, h, SessionManager.cleanup_session,
      dictFind_remove_self, dictFind_insert_self, List.mem_filter]

/-- C7's witness: the amended statement at the concrete live session. -/
theorem stop_agent_session_outcomes_witness :
    (SessionManager.stop_agent_session "sid1" (.ok true) smAfterCreate).1 = .ok true ∧
    dictFind "sid1"
        ((SessionManager.stop_agent_session "sid1" (.ok true) smAfterCreate).2).active_sessions
      = none ∧
    dictFind "sid1"
        ((SessionManager.stop_agent_session "sid1" (.ok true) smAfterCreate).2).session_executors
      = none ∧
    "sid1" ∉
      ((SessionManager.stop_agent_session "sid1" (.ok true) smAfterCreate).2).session_locks ∧
    dictFind "sid1"
        ((SessionManager.stop_agent_session "sid1" (.ok true) smAfterCreate).2).conversation_histories
      = none ∧
    (SessionManager.stop_agent_session "sid1" (.error "kaput") smAfterCreate).1
      = .ok false ∧
    dictFind "sid1"
        ((SessionManager.stop_agent_session "sid1" (.error "kaput") smAfterCreate).2).active_sessions
      = some { sess1Active with status := .stopping } ∧
    ((SessionManager.stop_agent_session "sid1" (.error "kaput") smAfterCreate).2).session_executors
      = smAfterCreate.session_executors ∧
    ((SessionManager.stop_agent_session "sid1" (.error "kaput") smAfterCreate).2).session_locks
      = smAfterCreate.session_locks ∧
    ((SessionManager.stop_agent_session "sid1" (.error "kaput") smAfterCreate).2).conversation_histories
      = smAfterCreate.conversation_histories :=
  stop_agent_session_outcomes smAfterCreate "sid1" sess1Active true "kaput" (by decide)

/-! ## Claim C6 -/

/-- C6: idempotent session creation.  Starting from any manager state in
which the user has no `active` session and the drawn uuid is fresh, a first
successful `create_agent_session` returns that uuid — and a second
`create_agent_session` call for the same user (whatever workspace, uuid,
clock or collaborator outcome it would have used) returns the same
session id and leaves the manager state — its session map and its executor
map included — exactly as it was: no second session, no second execution
handle. -/
theorem create_agent_session_idempotent (u : User) (wsp wsp2 : String)
    (sid1 sid2 pid : String) (out2 : Except String String) (now1 now2 : Nat)
    (s : SessionManagerState)
    (hnoactive : SessionManager.get_user_active_session u.user_id s = none)
    (hfresh : dictFind sid1 s.active_sessions = none) :
    (SessionManager.create_agent_session u wsp sid1 (.ok pid) now1 s).1 = .ok sid1 ∧
    SessionManager.create_agent_session u wsp2 sid2 out2 now2
        (SessionManager.create_agent_session u wsp sid1 (.ok pid) now1 s).2
      = (.ok sid1, (SessionManager.create_agent_session u wsp sid1 (.ok pid) now1 s).2) := by
  have hfirst :
      (SessionManager.create_agent_session u wsp sid1 (.ok pid) now1 s).1 = .ok sid1 := by
    simp [SessionManager.create_agent_session, hnoactive]
  refine ⟨hfirst, ?_⟩
  set S1 : SessionManagerState :=
    (SessionManager.create_agent_session u wsp sid1 (.ok pid) now1 s).2 with hS1
  set sessB : AgentSession :=
    { session_id := sid1
      agent_id := "agent_" ++ u.user_id
      user_id := u.user_id
      claude_process_id := pid
      workspace_path := wsp
      status := .active
      created_at := now1
      last_activity := .real now1 } with hsessB
  have hstate : S1.active_sessions = s.active_sessions ++ [(sid1, sessB)] := by
    simp only [hS1, SessionManager.create_agent_session, hnoactive]
    rw [dictInsert_not_found _ _ _ hfresh, dictInsert_replace_end _ _ _ _ hfresh]
  have hnone : s.active_sessions.find? (fun p =>
      decide (p.2.user_id = u.user_id) && decide (p.2.status = SessionStatus.active))
        = none := by
    simp only [SessionManager.get_user_active_session, Option.map_eq_none'] at hnoactive
    exact hnoactive
  have hact : SessionManager.get_user_active_session u.user_id S1 = some sessB := by
    simp only [SessionManager.get_user_active_session, hstate, List.find?_append, hnone,
      Option.none_or]
    simp
  rw [SessionManager.create_agent_session, hact]

/-- C6's witness: creating for `user1` twice — the second call (different
workspace, uuid, clock) returns the first id and changes nothing. -/
theorem create_agent_session_idempotent_witness :
    (SessionManager.create_agent_session user1 "/ws" "sid1" (.ok "pid7") 100
        SessionManager.initState).1 = .ok "sid1" ∧
    SessionManager.create_agent_session user1 "/other" "sid9" (.ok "pid9") 200
        (SessionManager.create_agent_session user1 "/ws" "sid1" (.ok "pid7") 100
          SessionManager.initState).2
      = (.ok "sid1",
         (SessionManager.create_agent_session user1 "/ws" "sid1" (.ok "pid7") 100
           SessionManager.initState).2) :=
  create_agent_session_idempotent user1 "/ws" "/other" "sid1" "sid9" "pid7"
    (.ok "pid9") 100 200 SessionManager.initState rfl rfl

/-! ## Claim C5: lemmas about dequeue and the job state machine -/

/-- What a successful dequeue did: it selected a pending row and produced the
state in which exactly the rows carrying that id are marked `processing` with
`started_at` stamped. -/
theorem mem_of_head?_some {α : Type} {l : List α} {a : α} (h : l.head? = some a) :
    a ∈ l := by
  obtain ⟨ys, rfl⟩ := List.head?_eq_some_iff.mp h
  exact List.mem_cons_self a ys

theorem dequeue_anatomy (jt : Option String) (now : Nat) (s s' : JobQueueState)
    (j : DequeuedJob)
    (h : JobQueue.dequeue jt now s = (.ok (some j), s')) :
    ∃ r0 ∈ s.rows, r0.status = .pending ∧ j.id = r0.id ∧
      s' = { s with rows := s.rows.map fun r =>
        if r.id = r0.id then { r with status := .processing, started_at := some now }
        else r } := by
  obtain ⟨init, rows, nid⟩ := s
  by_cases hinit : init = true
  · subst hinit
    simp only [JobQueue.dequeue, Bool.not_true, Bool.false_eq_true, if_false] at h
    split at h
    · simp at h
    · rename_i r0 hr0
      have h3 := List.mem_filter.mp
        ((List.mem_insertionSort jobCreatedLe).mp (mem_of_head?_some hr0))
      have hr0p : r0.status = .pending := by
        have := h3.2
        simp only [Bool.and_eq_true, decide_eq_true_eq] at this
        exact this.1
      simp only [Prod.mk.injEq, Except.ok.injEq, Option.some.injEq] at h
      exact ⟨r0, h3.1, hr0p, by rw [← h.1], h.2.symm⟩
  · replace hinit : init = false := by revert hinit; cases init <;> simp
    subst hinit
    simp [JobQueue.dequeue] at h

/-- After a successful dequeue, the claimed id is `processing`. -/
theorem dequeue_marks_processing (jt : Option String) (now : Nat)
    (s s' : JobQueueState) (j : DequeuedJob)
    (h : JobQueue.dequeue jt now s = (.ok (some j), s')) :
    jobStatusOf s' j.id = some .processing := by
  obtain ⟨r0, hr0mem, hr0p, hjid, rfl⟩ := dequeue_anatomy jt now s _ j h
  rw [jobStatusOf]
  rw [show ({ s with rows := s.rows.map fun r =>
      if r.id = r0.id then { r with status := JobStatus.processing, started_at := some now }
      else r } : JobQueueState).rows = s.rows.map fun r =>
      if r.id = r0.id then { r with status := JobStatus.processing, started_at := some now }
      else r from rfl]
  rw [hjid, find?_map_preserve_id _ _
    (fun r => by by_cases hr : r.id = r0.id <;> simp [hr]) r0.id]
  have hsome : (s.rows.find? fun r => r.id = r0.id).isSome := by
    rw [List.find?_isSome]
    exact ⟨r0, hr0mem, by simp⟩
  obtain ⟨rr, hrr⟩ := Option.isSome_iff_exists.mp hsome
  have hrrid : rr.id = r0.id := by simpa using List.find?_some hrr
  rw [hrr]
  simp [hrrid]

/-- A `processing` status survives any queue call that does not finalize the
job: enqueue adds a fresh row, dequeue only promotes pending rows (or marks a
row processing again), complete/fail touch only their own id, cleanup deletes
only terminal rows. -/
theorem op_preserves_processing (s : JobQueueState) (op : JQOp) (job_id : Nat)
    (hst : jobStatusOf s job_id = some .processing)
    (hop : ¬ op.finalizes job_id) :
    jobStatusOf (op.apply s) job_id = some .processing := by
  obtain ⟨r, hfind, hrs⟩ : ∃ r, (s.rows.find? fun x => x.id = job_id) = some r ∧
      r.status = .processing := by
    obtain ⟨r, h1, h2⟩ := Option.map_eq_some'.mp hst
    exact ⟨r, h1, h2⟩
  have hrid : r.id = job_id := by simpa using List.find?_some hfind
  cases op with
  | enq jt p t =>
    by_cases hinit : s.initialized
    · simp [JQOp.apply, JobQueue.enqueue, hinit, jobStatusOf, List.find?_append, hfind, hrs]
    · simp [JQOp.apply, JobQueue.enqueue, hinit, jobStatusOf, hfind, hrs]
  | deq jt t =>
    by_cases hinit : s.initialized
    · simp only [JQOp.apply, JobQueue.dequeue, hinit, Bool.not_true, Bool.false_eq_true,
        if_false]
      split
      · simp [jobStatusOf, hfind, hrs]
      · rename_i r0 hr0
        rw [jobStatusOf]
        rw [show ({ s with rows := s.rows.map fun r =>
            if r.id = r0.id then { r with status := JobStatus.processing, started_at := some t }
            else r } : JobQueueState).rows = s.rows.map fun r =>
            if r.id = r0.id then { r with status := JobStatus.processing, started_at := some t }
            else r from rfl]
        rw [find?_map_preserve_id _ _
          (fun rr => by by_cases hr : rr.id = r0.id <;> simp [hr]) job_id, hfind]
        by_cases hr : r.id = r0.id <;> simp [hr, hrs]
    · simp [JQOp.apply, JobQueue.dequeue, hinit, jobStatusOf, hfind, hrs]
  | complete jid res t =>
    have hne : jid ≠ job_id := by simpa [JQOp.finalizes] using hop
    by_cases hinit : s.initialized
    · simp only [JQOp.apply, JobQueue.complete_job, hinit, Bool.not_true, Bool.false_eq_true,
        if_false]
      rw [jobStatusOf]
      rw [show ({ s with rows := s.rows.map fun r =>
          if r.id = jid then { r with status := JobStatus.completed, completed_at := some t }
          else r } : JobQueueState).rows = s.rows.map fun r =>
          if r.id = jid then { r with status := JobStatus.completed, completed_at := some t }
          else r from rfl]
      rw [find?_map_preserve_id _ _
        (fun rr => by by_cases hr : rr.id = jid <;> simp [hr]) job_id, hfind]
      simp [hrid, hne.symm, hrs]
    · simp [JQOp.apply, JobQueue.complete_job, hinit, jobStatusOf, hfind, hrs]
  | fail jid m t =>
    have hne : jid ≠ job_id := by simpa [JQOp.finalizes] using hop
    by_cases hinit : s.initialized
    · simp only [JQOp.apply, JobQueue.fail_job, hinit, Bool.not_true, Bool.false_eq_true,
        if_false]
      rw [jobStatusOf]
      rw [show ({ s with rows := s.rows.map fun r =>
          if r.id = jid then { r with
            status := JobStatus.failed
            completed_at := some t
            error_message := some m }
          else r } : JobQueueState).rows = s.rows.map fun r =>
          if r.id = jid then { r with
            status := JobStatus.failed
            completed_at := some t
            error_message := some m }
          else r from rfl]
      rw [find?_map_preserve_id _ _
        (fun rr => by by_cases hr : rr.id = jid <;> simp [hr]) job_id, hfind]
      simp [hrid, hne.symm, hrs]
    · simp [JQOp.apply, JobQueue.fail_job, hinit, jobStatusOf, hfind, hrs]
  | clean hrs' t =>
    by_cases hinit : s.initialized
    · simp only [JQOp.apply, JobQueue.cleanup, hinit, Bool.not_true, Bool.false_eq_true,
        if_false]
      rw [jobStatusOf]
      rw [show ∀ keep, ({ s with rows := s.rows.filter keep } : JobQueueState).rows
        = s.rows.filter keep from fun _ => rfl]
      rw [find?_filter_keep _ _ job_id r hfind (by simp [hrs])]
      simp [hrs]
    · simp [JQOp.apply, JobQueue.cleanup, hinit, jobStatusOf, hfind, hrs]

theorem wf_rows_map (s : JobQueueState) (f : JobRow → JobRow)
    (hf : ∀ r, (f r).id = r.id) (h : JQWF s) :
    JQWF { s with rows := s.rows.map f } := by
  obtain ⟨hnd, hbound⟩ := h
  constructor
  · rw [show ({ s with rows := s.rows.map f } : JobQueueState).rows = s.rows.map f from rfl]
    rw [List.map_map]
    have : ((fun r : JobRow => r.id) ∘ f) = fun r : JobRow => r.id := by
      funext r
      simp [hf]
    rw [this]
    exact hnd
  · intro r hr
    obtain ⟨r', hr', rfl⟩ := List.mem_map.mp hr
    rw [hf]
    exact hbound r' hr'

theorem wf_rows_filter (s : JobQueueState) (keep : JobRow → Bool) (h : JQWF s) :
    JQWF { s with rows := s.rows.filter keep } := by
  obtain ⟨hnd, hbound⟩ := h
  constructor
  · exact List.Nodup.sublist ((List.filter_sublist s.rows).map (·.id)) hnd
  · intro r hr
    exact hbound r (List.mem_of_mem_filter hr)

/-- Well-formedness (distinct ids below the counter) survives every call. -/
theorem op_preserves_wf (s : JobQueueState) (op : JQOp) (h : JQWF s) :
    JQWF (op.apply s) := by
  obtain ⟨init, rows, nid⟩ := s
  cases init with
  | false => cases op <;> exact h
  | true =>
    obtain ⟨hnd, hbound⟩ := h
    cases op with
    | enq jt p t =>
      refine ⟨?_, ?_⟩
      · show (List.map (fun r : JobRow => r.id) (rows ++ [_])).Nodup
        rw [List.map_append, List.nodup_append]
        refine ⟨hnd, List.nodup_singleton _, ?_⟩
        intro x hx hx'
        simp only [List.map_cons, List.map_nil, List.mem_singleton] at hx'
        subst hx'
        obtain ⟨r', hr', hid⟩ := List.mem_map.mp hx
        exact absurd hid (Nat.ne_of_lt (hbound r' hr'))
      · intro r hr
        rcases List.mem_append.mp hr with hr | hr
        · exact Nat.lt_trans (hbound r hr) (Nat.lt_succ_self _)
        · simp only [List.mem_singleton] at hr
          subst hr
          exact Nat.lt_succ_self _
    | deq jt t =>
      simp only [JQOp.apply, JobQueue.dequeue, Bool.not_true, Bool.false_eq_true, if_false]
      split
      · exact ⟨hnd, hbound⟩
      · rename_i r0 hr0
        exact wf_rows_map ⟨true, rows, nid⟩ _
          (fun r => by by_cases hr : r.id = r0.id <;> simp [hr]) ⟨hnd, hbound⟩
    | complete jid res t =>
      exact wf_rows_map ⟨true, rows, nid⟩ _
        (fun r => by by_cases hr : r.id = jid <;> simp [hr]) ⟨hnd, hbound⟩
    | fail jid m t =>
      exact wf_rows_map ⟨true, rows, nid⟩ _
        (fun r => by by_cases hr : r.id = jid <;> simp [hr]) ⟨hnd, hbound⟩
    | clean hcl t =>
      exact wf_rows_filter ⟨true, rows, nid⟩ _ ⟨hnd, hbound⟩

/-- Both invariants pushed through a whole call sequence. -/
theorem fold_preserves_processing (ops : List JQOp) (job_id : Nat) :
    ∀ s : JobQueueState, jobStatusOf s job_id = some .processing → JQWF s →
      (∀ op ∈ ops, ¬ op.finalizes job_id) →
      jobStatusOf (ops.foldl JQOp.apply s) job_id = some .processing ∧
        JQWF (ops.foldl JQOp.apply s) := by
  induction ops with
  | nil => exact fun s h hw _ => ⟨h, hw⟩
  | cons op rest ih =>
    intro s h hw hops
    rw [List.foldl_cons]
    exact ih (op.apply s)
      (op_preserves_processing s op job_id h (hops op (List.mem_cons_self op rest)))
      (op_preserves_wf s op hw)
      (fun o ho => hops o (List.mem_cons_of_mem op ho))

/-- With distinct ids, membership determines the lookup. -/
theorem find?_eq_of_mem_nodup (rows : List JobRow)
    (hnd : (rows.map (·.id)).Nodup) (r : JobRow) (hr : r ∈ rows) :
    rows.find? (fun x => x.id = r.id) = some r := by
  induction rows with
  | nil => simp at hr
  | cons a l ih =>
    rcases List.mem_cons.mp hr with rfl | hr'
    · exact List.find?_cons_of_pos _ (by simp)
    · have hnd' : ((a.id : Nat) ∉ l.map (·.id)) ∧ (l.map (·.id)).Nodup := by
        simpa [List.nodup_cons] using hnd
      have haid : ¬(a.id = r.id) := by
        intro hcontra
        exact hnd'.1 (hcontra ▸ List.mem_map_of_mem (·.id) hr')
      rw [List.find?_cons_of_neg _ (by simpa using haid)]
      exact ih hnd'.2 hr'

/-- C5: no double claim under a single worker.  Once a dequeue call has
returned job `j` (marking it `processing` in the same call), no later dequeue
returns a job with `j`'s id, however many enqueue/dequeue/cleanup calls — or
complete/fail calls on other jobs — happen in between, as long as `j` itself
is not completed or failed. -/
theorem dequeue_no_double_claim (s : JobQueueState) (jt : Option String) (now : Nat)
    (j : DequeuedJob) (s' : JobQueueState) (hwf : JQWF s)
    (hdq : JobQueue.dequeue jt now s = (.ok (some j), s'))
    (ops : List JQOp) (hops : ∀ op ∈ ops, ¬ op.finalizes j.id)
    (jt2 : Option String) (now2 : Nat) (j2 : DequeuedJob) (t2 : JobQueueState)
    (hdq2 : JobQueue.dequeue jt2 now2 (ops.foldl JQOp.apply s') = (.ok (some j2), t2)) :
    j2.id ≠ j.id := by
  have hs' : jobStatusOf s' j.id = some .processing :=
    dequeue_marks_processing jt now s s' j hdq
  have hwf' : JQWF s' := by
    have happ : JQOp.apply s (.deq jt now) = s' := by
      simp [JQOp.apply, hdq]
    exact happ ▸ op_preserves_wf s (.deq jt now) hwf
  obtain ⟨hstT, hwfT⟩ := fold_preserves_processing ops j.id s' hs' hwf' hops
  obtain ⟨r2, hr2mem, hr2p, hj2id, -⟩ := dequeue_anatomy jt2 now2 _ t2 j2 hdq2
  intro heq
  obtain ⟨rp, hrp, hrps⟩ := Option.map_eq_some'.mp hstT
  have hfound := find?_eq_of_mem_nodup _ hwfT.1 r2 hr2mem
  rw [show r2.id = j.id from by rw [← hj2id, heq]] at hfound
  rw [hrp] at hfound
  obtain rfl : rp = r2 := by simpa using hfound
  rw [hr2p] at hrps
  exact absurd hrps (by simp)

/-- C5's witness: job 1 was dequeued (now `processing`); after an unrelated
enqueue, the next dequeue returns job 2, not job 1 again. -/
theorem dequeue_no_double_claim_witness : jdq2.id ≠ jdq1.id :=
  dequeue_no_double_claim jqS1 none 11 jdq1 jqS2 ⟨by decide, by decide⟩ rfl
    [.enq "cleanup_task" .null 20] (by simp [JQOp.finalizes])
    none 21 jdq2 (JobQueue.dequeue none 21 jqT).2 rfl

/-! ## Claim C4: lemmas about publish/enqueue sequences -/

theorem map_eq_self_of {α : Type} (l : List α) (f : α → α) (h : ∀ a ∈ l, f a = a) :
    l.map f = l := by
  induction l with
  | nil => rfl
  | cons a t ih =>
    rw [List.map_cons, h a (List.mem_cons_self a t), ih fun x hx => h x (List.mem_cons_of_mem a hx)]

theorem publishSeq_closed (ps : List (String × JVal)) (tf : Nat → Nat) :
    ∀ (i : Nat) (rows : List EventRow) (nid : Nat),
    publishSeq ps tf i ⟨true, rows, nid⟩
      = ⟨true, rows ++ builtEventRows ps tf i nid, nid + ps.length⟩ := by
  induction ps with
  | nil => intro i rows nid; simp [publishSeq, builtEventRows]
  | cons p rest ih =>
    intro i rows nid
    simp only [publishSeq]
    rw [show (EventBus.publish p.1 p.2 (tf i) ⟨true, rows, nid⟩).2
      = ⟨true, rows ++ [⟨nid, p.1, json_dumps p.2, tf i, false⟩], nid + 1⟩ from rfl]
    rw [ih]
    simp only [builtEventRows, EventBusState.mk.injEq, List.append_assoc,
      List.singleton_append, List.length_cons, true_and]
    omega

theorem builtEventRows_mem_created (ps : List (String × JVal)) (tf : Nat → Nat) :
    ∀ i nid r, r ∈ builtEventRows ps tf i nid → ∃ k, i ≤ k ∧ r.created_at = tf k := by
  induction ps with
  | nil => intro i nid r hr; simp [builtEventRows] at hr
  | cons p rest ih =>
    intro i nid r hr
    rcases List.mem_cons.mp hr with rfl | hr'
    · exact ⟨i, Nat.le_refl i, rfl⟩
    · obtain ⟨k, hk, hc⟩ := ih (i + 1) (nid + 1) r hr'
      exact ⟨k, by omega, hc⟩

theorem builtEventRows_sorted (ps : List (String × JVal)) (tf : Nat → Nat)
    (hmono : ∀ a b, a ≤ b → tf a ≤ tf b) :
    ∀ i nid, List.Sorted createdLe (builtEventRows ps tf i nid) := by
  induction ps with
  | nil => intro i nid; simp [builtEventRows]
  | cons p rest ih =>
    intro i nid
    rw [builtEventRows, List.sorted_cons]
    refine ⟨?_, ih (i + 1) (nid + 1)⟩
    intro b hb
    obtain ⟨k, hk, hc⟩ := builtEventRows_mem_created rest tf (i + 1) (nid + 1) b hb
    show createdLe _ b
    rw [createdLe, hc]
    exact hmono i k (by omega)

theorem builtEventRows_unprocessed (ps : List (String × JVal)) (tf : Nat → Nat) :
    ∀ i nid r, r ∈ builtEventRows ps tf i nid → r.processed = false := by
  induction ps with
  | nil => intro i nid r hr; simp [builtEventRows] at hr
  | cons p rest ih =>
    intro i nid r hr
    rcases List.mem_cons.mp hr with rfl | hr'
    · rfl
    · exact ih (i + 1) (nid + 1) r hr'

theorem builtEventRows_length (ps : List (String × JVal)) (tf : Nat → Nat) :
    ∀ i nid, (builtEventRows ps tf i nid).length = ps.length := by
  induction ps with
  | nil => intro i nid; rfl
  | cons p rest ih =>
    intro i nid
    simp [builtEventRows, ih (i + 1) (nid + 1)]

theorem builtEventRows_map (ps : List (String × JVal)) (tf : Nat → Nat) :
    ∀ i nid, (builtEventRows ps tf i nid).map (fun r =>
        ({ id := r.id
           event_type := r.event_type
           data := json_loads r.data
           created_at := r.created_at } : ConsumedEvent))
      = expectedEvents ps tf i nid := by
  induction ps with
  | nil => intro i nid; rfl
  | cons p rest ih =>
    intro i nid
    simp only [builtEventRows, List.map_cons, expectedEvents, ih (i + 1) (nid + 1)]
    simp [json_loads_dumps p.2]

theorem consume_after_publishSeq (ps : List (String × JVal)) (tf : Nat → Nat)
    (hmono : ∀ a b, a ≤ b → tf a ≤ tf b) :
    (EventBus.consume ps.length true none (publishSeq ps tf 0 EventBus.initState)).1
      = .ok (expectedEvents ps tf 0 1) := by
  rw [show EventBus.initState = (⟨true, [], 1⟩ : EventBusState) from rfl,
    publishSeq_closed ps tf 0 [] 1]
  simp only [List.nil_append]
  have hfilter : (builtEventRows ps tf 0 1).filter (fun r => !r.processed)
      = builtEventRows ps tf 0 1 :=
    List.filter_eq_self.mpr fun r hr => by
      simp [builtEventRows_unprocessed ps tf 0 1 r hr]
  have hsort : (builtEventRows ps tf 0 1).insertionSort createdLe
      = builtEventRows ps tf 0 1 :=
    (builtEventRows_sorted ps tf hmono 0 1).insertionSort_eq
  have htake : (builtEventRows ps tf 0 1).take ps.length = builtEventRows ps tf 0 1 := by
    rw [← builtEventRows_length ps tf 0 1, List.take_length]
  simp only [EventBus.consume, Bool.not_true, Bool.false_eq_true, if_false, Bool.and_true,
    hfilter, hsort, htake, builtEventRows_map ps tf 0 1]

theorem enqueueSeq_closed (qs : List JVal) (jt : String) (tf : Nat → Nat) :
    ∀ (i : Nat) (rows : List JobRow) (nid : Nat),
    enqueueSeq qs jt tf i ⟨true, rows, nid⟩
      = ⟨true, rows ++ builtJobRows qs jt tf i nid, nid + qs.length⟩ := by
  induction qs with
  | nil => intro i rows nid; simp [enqueueSeq, builtJobRows]
  | cons p rest ih =>
    intro i rows nid
    simp only [enqueueSeq]
    rw [show (JobQueue.enqueue jt p (tf i) ⟨true, rows, nid⟩).2
      = ⟨true, rows ++ [⟨nid, jt, json_dumps p, .pending, tf i, none, none, none, 0⟩], nid + 1⟩
      from rfl]
    rw [ih]
    simp only [builtJobRows, JobQueueState.mk.injEq, List.append_assoc,
      List.singleton_append, List.length_cons, true_and]
    omega

theorem builtJobRows_mem_created (qs : List JVal) (jt : String) (tf : Nat → Nat) :
    ∀ i nid r, r ∈ builtJobRows qs jt tf i nid → ∃ k, i ≤ k ∧ r.created_at = tf k := by
  induction qs with
  | nil => intro i nid r hr; simp [builtJobRows] at hr
  | cons p rest ih =>
    intro i nid r hr
    rcases List.mem_cons.mp hr with rfl | hr'
    · exact ⟨i, Nat.le_refl i, rfl⟩
    · obtain ⟨k, hk, hc⟩ := ih (i + 1) (nid + 1) r hr'
      exact ⟨k, by omega, hc⟩

theorem builtJobRows_sorted (qs : List JVal) (jt : String) (tf : Nat → Nat)
    (hmono : ∀ a b, a ≤ b → tf a ≤ tf b) :
    ∀ i nid, List.Sorted jobCreatedLe (builtJobRows qs jt tf i nid) := by
  induction qs with
  | nil => intro i nid; simp [builtJobRows]
  | cons p rest ih =>
    intro i nid
    rw [builtJobRows, List.sorted_cons]
    refine ⟨?_, ih (i + 1) (nid + 1)⟩
    intro b hb
    obtain ⟨k, hk, hc⟩ := builtJobRows_mem_created rest jt tf (i + 1) (nid + 1) b hb
    show jobCreatedLe _ b
    rw [jobCreatedLe, hc]
    exact hmono i k (by omega)

theorem builtJobRows_pending (qs : List JVal) (jt : String) (tf : Nat → Nat) :
    ∀ i nid r, r ∈ builtJobRows qs jt tf i nid → r.status = .pending := by
  induction qs with
  | nil => intro i nid r hr; simp [builtJobRows] at hr
  | cons p rest ih =>
    intro i nid r hr
    rcases List.mem_cons.mp hr with rfl | hr'
    · rfl
    · exact ih (i + 1) (nid + 1) r hr'

theorem builtJobRows_id_lb (qs : List JVal) (jt : String) (tf : Nat → Nat) :
    ∀ i nid r, r ∈ builtJobRows qs jt tf i nid → nid ≤ r.id := by
  induction qs with
  | nil => intro i nid r hr; simp [builtJobRows] at hr
  | cons p rest ih =>
    intro i nid r hr
    rcases List.mem_cons.mp hr with rfl | hr'
    · exact Nat.le_refl nid
    · exact Nat.le_trans (Nat.le_succ nid) (ih (i + 1) (nid + 1) r hr')

/-- The workhorse of the job-side FIFO property: on a store whose rows are a
block of non-pending rows (ids below `nid`) followed by the freshly enqueued
pending block, successive dequeues return the enqueued jobs oldest-first. -/
theorem dequeueSeq_on_built (qs : List JVal) (jt : String) (tf : Nat → Nat)
    (hmono : ∀ a b, a ≤ b → tf a ≤ tf b) (td : Nat → Nat) :
    ∀ (i iq nid : Nat) (A : List JobRow) (N : Nat),
      (∀ r ∈ A, r.status ≠ .pending) →
      (∀ r ∈ A, r.id < nid) →
      (dequeueSeq qs.length td iq ⟨true, A ++ builtJobRows qs jt tf i nid, N⟩).1
        = expectedDequeues qs jt tf i nid := by
  induction qs with
  | nil => intro i iq nid A N hA hAid; rfl
  | cons p rest ih =>
    intro i iq nid A N hA hAid
    have hmonoS : ∀ a b, a ≤ b → tf a ≤ tf b := hmono
    set b0 : JobRow := ⟨nid, jt, json_dumps p, .pending, tf i, none, none, none, 0⟩ with hb0
    set B : List JobRow := builtJobRows rest jt tf (i + 1) (nid + 1) with hB
    have hrows : builtJobRows (p :: rest) jt tf i nid = b0 :: B := rfl
    have hfilA : A.filter (fun r => decide (r.status = JobStatus.pending)) = [] :=
      List.filter_eq_nil_iff.mpr fun r hr => by simp [hA r hr]
    have hfilB : (b0 :: B).filter (fun r => decide (r.status = JobStatus.pending))
        = b0 :: B :=
      List.filter_eq_self.mpr fun r hr => by
        rcases List.mem_cons.mp hr with rfl | hr'
        · simp [hb0]
        · simp [builtJobRows_pending rest jt tf (i + 1) (nid + 1) r hr']
    have hsort : (b0 :: B).insertionSort jobCreatedLe = b0 :: B := by
      refine List.Sorted.insertionSort_eq ?_
      rw [List.sorted_cons]
      refine ⟨?_, builtJobRows_sorted rest jt tf hmono (i + 1) (nid + 1)⟩
      intro b hb
      obtain ⟨k, hk, hc⟩ := builtJobRows_mem_created rest jt tf (i + 1) (nid + 1) b hb
      show jobCreatedLe b0 b
      rw [jobCreatedLe, hc]
      exact hmono i k (by omega)
    have hupdA : A.map (fun r =>
        if r.id = b0.id then { r with status := JobStatus.processing, started_at := some (td iq) }
        else r) = A :=
      map_eq_self_of _ _ fun a ha => if_neg (by
        have := hAid a ha
        simp only [hb0]
        omega)
    have hupdB : B.map (fun r =>
        if r.id = b0.id then { r with status := JobStatus.processing, started_at := some (td iq) }
        else r) = B :=
      map_eq_self_of _ _ fun a ha => if_neg (by
        have := builtJobRows_id_lb rest jt tf (i + 1) (nid + 1) a ha
        simp only [hb0]
        omega)
    have hdeq : JobQueue.dequeue none (td iq) ⟨true, A ++ builtJobRows (p :: rest) jt tf i nid, N⟩
        = (.ok (some ⟨nid, jt, json_loads (json_dumps p), tf i, 0⟩),
           ⟨true, (A ++ [{ b0 with status := JobStatus.processing, started_at := some (td iq) }]) ++ B, N⟩) := by
      simp only [JobQueue.dequeue, Bool.not_true, Bool.false_eq_true, if_false, hrows,
        List.filter_append, Bool.and_true, hfilA, hfilB, List.nil_append, hsort,
        List.head?_cons, List.map_append, List.map_cons, hupdA, hupdB]
      simp [List.append_assoc]
    rw [show (p :: rest).length = rest.length + 1 from rfl]
    rw [dequeueSeq]
    simp only [hdeq]
    rw [show expectedDequeues (p :: rest) jt tf i nid
      = .ok (some ⟨nid, jt, some p, tf i, 0⟩) :: expectedDequeues rest jt tf (i + 1) (nid + 1)
      from rfl]
    have htail := ih (i + 1) (iq + 1) (nid + 1)
      (A ++ [{ b0 with status := JobStatus.processing, started_at := some (td iq) }]) N
      (fun r hr => by
        rcases List.mem_append.mp hr with hr' | hr'
        · exact hA r hr'
        · simp only [List.mem_singleton] at hr'
          subst hr'
          simp)
      (fun r hr => by
        rcases List.mem_append.mp hr with hr' | hr'
        · exact Nat.lt_trans (hAid r hr') (Nat.lt_succ_self nid)
        · simp only [List.mem_singleton] at hr'
          subst hr'
          simp [hb0])
    rw [← hB] at htail
    simp only [htail, json_loads_dumps p]

/-- C4: FIFO by creation time.  Publishing any sequence of events at
non-decreasing clock readings and then consuming returns exactly those events
in creation order (ascending `created_at`, ids in insertion order, payloads
round-tripped); and enqueuing any sequence of jobs of one type at
non-decreasing clock readings and then dequeuing repeatedly claims exactly
those jobs in creation order, oldest first, whatever clock the dequeues run
at. -/
theorem fifo_consume_dequeue (ps : List (String × JVal)) (qs : List JVal)
    (jt : String) (tf tg td : Nat → Nat)
    (hmonoE : ∀ a b, a ≤ b → tf a ≤ tf b)
    (hmonoJ : ∀ a b, a ≤ b → tg a ≤ tg b) :
    (EventBus.consume ps.length true none (publishSeq ps tf 0 EventBus.initState)).1
      = .ok (expectedEvents ps tf 0 1) ∧
    (dequeueSeq qs.length td 0 (enqueueSeq qs jt tg 0 JobQueue.initState)).1
      = expectedDequeues qs jt tg 0 1 := by
  refine ⟨consume_after_publishSeq ps tf hmonoE, ?_⟩
  rw [show JobQueue.initState = (⟨true, [], 1⟩ : JobQueueState) from rfl,
    enqueueSeq_closed qs jt tg 0 [] 1]
  have := dequeueSeq_on_built qs jt tg hmonoJ td 0 0 1 [] (1 + qs.length)
    (by intro r hr; simp at hr) (by intro r hr; simp at hr)
  simpa using this

/-- C4's witness: two events published at t=0,1 come back in order with their
payloads; two `avatar_generation` jobs enqueued at t=0,1 are claimed oldest
first by successive dequeues. -/
theorem fifo_consume_dequeue_witness :
    (EventBus.consume
        ([(("user_registered" : String), JVal.obj [(['i', 'd'], .int 1)]),
          (("entry_created" : String), JVal.int 2)] : List (String × JVal)).length
        true none
        (publishSeq
          [(("user_registered" : String), JVal.obj [(['i', 'd'], .int 1)]),
            (("entry_created" : String), JVal.int 2)]
          (fun k => k) 0 EventBus.initState)).1
      = .ok (expectedEvents
          [(("user_registered" : String), JVal.obj [(['i', 'd'], .int 1)]),
            (("entry_created" : String), JVal.int 2)]
          (fun k => k) 0 1) ∧
    (dequeueSeq ([JVal.int 10, JVal.int 20] : List JVal).length (fun k => 50 + k) 0
        (enqueueSeq [JVal.int 10, JVal.int 20] "avatar_generation" (fun k => k) 0
          JobQueue.initState)).1
      = expectedDequeues [JVal.int 10, JVal.int 20] "avatar_generation" (fun k => k) 0 1 :=
  fifo_consume_dequeue
    [(("user_registered" : String), JVal.obj [(['i', 'd'], .int 1)]),
      (("entry_created" : String), JVal.int 2)]
    [JVal.int 10, JVal.int 20] "avatar_generation"
    (fun k => k) (fun k => k) (fun k => 50 + k)
    (fun _ _ h => h) (fun _ _ h => h)

/-! ## Claim C9 -/

/-- C9: payload round trip.  For every event type and every structured
payload — nested maps and lists included — publishing and then consuming
(default limit) returns the event with its `data` field equal to the
published payload: `json.loads` of the stored `json.dumps` text is the
payload itself. -/
theorem publish_consume_roundtrip (et : String) (payload : JVal) (t : Nat) :
    (EventBus.consume 100 true none
        (EventBus.publish et payload t EventBus.initState).2).1
      = .ok [⟨1, et, some payload, t⟩] := by
  rw [show (EventBus.publish et payload t EventBus.initState).2
    = ⟨true, [⟨1, et, json_dumps payload, t, false⟩], 2⟩ from rfl]
  simp [EventBus.consume, List.insertionSort, List.orderedInsert,
    json_loads_dumps payload]
